import Mathlib

/-
Shallow embedding of src/Streamlit_table_editor/pages/table_editor.py.

Pandas cell values are modelled by `Val`: `na` stands for any missing value
(NaN / NaT / None), `int` for integers, `ts` for datetime values (as an
integer timeline position), `str` for strings.  A pandas row is an
association list from column names to values; a DataFrame is its column
list together with the (index label, row) pairs produced by set_index.
-/

namespace TableEditor

inductive Val where
  | na
  | int (n : Int)
  | ts (n : Int)
  | str (s : String)
deriving DecidableEq, Repr

/-- pd.isna: only the missing value is missing. -/
def Val.isna : Val → Bool
  | .na => true
  | _ => false

/-- Rendering of a value inside an f-string (only its injectivity-free use in
error messages matters to the claims). -/
def Val.render : Val → String
  | .na => "nan"
  | .int n => toString n
  | .ts n => toString n
  | .str s => s

/-- Pandas scalar inequality: a missing value compares unequal to
everything, including another missing value. -/
def pdNe (a b : Val) : Bool :=
  if a.isna || b.isna then true else a != b

abbrev Row := List (String × Val)

/-- Value of column c in a row (pandas cell access; missing key gives NaN). -/
def rowGet (r : Row) (c : String) : Val :=
  match r.find? (fun kv => kv.1 == c) with
  | some kv => kv.2
  | none => .na

/-- Series.drop(label) / DataFrame.drop(columns=[label], errors="ignore"):
remove the entry for the given column. -/
def dropKey (r : Row) (c : String) : Row :=
  r.filter (fun kv => kv.1 != c)

/-- Assignment of one cell of a row: replace the value of an existing
column, or append the column at the end (pandas column creation). -/
def rowSet (r : Row) (c : String) (v : Val) : Row :=
  if r.any (fun kv => kv.1 == c) then
    r.map (fun kv => if kv.1 == c then (kv.1, v) else kv)
  else r ++ [(c, v)]

/-- A DataFrame: its columns and its rows, each row paired with its index
label (the table is indexed by primary key via set_index(pk, drop=False)). -/
structure DF where
  cols : List String
  rows : List (Val × Row)
deriving DecidableEq, Repr

def DF.labels (df : DF) : List Val := df.rows.map Prod.fst

def DF.isEmpty (df : DF) : Bool := df.rows.isEmpty

/-- df.index[i] — positional lookup into the index; out of range raises
IndexError, exactly as pandas does. -/
def indexAt (df : DF) (i : Nat) : Except String Val :=
  match df.rows.get? i with
  | some p => .ok p.1
  | none => .error "IndexError: index out of range"

/-- List-comprehension [df.index[i] for i in indices]: first failure
propagates. -/
def indexListAt (df : DF) : List Nat → Except String (List Val)
  | [] => .ok []
  | i :: is =>
    match indexAt df i with
    | .error e => .error e
    | .ok v =>
      match indexListAt df is with
      | .error e => .error e
      | .ok vs => .ok (v :: vs)

/-- df.loc[label] — row selection by index label.  Every call site passes a
label drawn from df's own index, so the missing-label case (a pandas
KeyError) is unreachable; it is given a default to keep the model total. -/
def locRow (df : DF) (lbl : Val) : Val × Row :=
  match df.rows.find? (fun p => p.1 == lbl) with
  | some p => p
  | none => (lbl, [])

/-- df.loc[labels] — row-set selection in the order of the given labels;
keeps the columns. -/
def locList (df : DF) (lbls : List Val) : DF :=
  { cols := df.cols, rows := lbls.map (locRow df) }

/-- df.loc[label, column] = value: sets the cell in every row carrying the
label; a column not yet present is appended for all rows (NaN elsewhere). -/
def setCellByLabel (df : DF) (lbl : Val) (c : String) (v : Val) : DF :=
  if df.cols.contains c then
    { df with rows := df.rows.map (fun p =>
        if p.1 == lbl then (p.1, rowSet p.2 c v) else p) }
  else
    { cols := df.cols ++ [c],
      rows := df.rows.map (fun p =>
        (p.1, p.2 ++ [(c, if p.1 == lbl then v else Val.na)])) }

/-- Model of pandas datetime parsing for one scalar: datetimes pass
through, integers are taken as timeline positions, digit-strings parse
(standing in for the strings pandas can parse), any other string fails. -/
def parseTimestamp (s : String) : Option Int :=
  if s.data ≠ [] ∧ s.data.all (fun c => 48 ≤ c.toNat && c.toNat ≤ 57) then
    some (Int.ofNat (s.data.foldl (fun n c => 10 * n + (c.toNat - 48)) 0))
  else none

/-- pd.to_datetime(x, errors="coerce") on one scalar: unparseable values
become NaT. -/
def toDatetimeCoerce : Val → Val
  | .na => .na
  | .ts n => .ts n
  | .int n => .ts n
  | .str s =>
    match parseTimestamp s with
    | some n => .ts n
    | none => .na

/-- pd.to_datetime(x) on one scalar with default errors="raise". -/
def toDatetimeStrict : Val → Except String Val
  | .na => .ok .na
  | .ts n => .ok (.ts n)
  | .int n => .ok (.ts n)
  | .str s =>
    match parseTimestamp s with
    | some n => .ok (.ts n)
    | none => .error "ValueError: could not parse timestamp"

/-- df['TIMESTAMP'] = pd.to_datetime(df['TIMESTAMP'], errors="coerce"),
guarded by 'TIMESTAMP' in df.columns. -/
def coerceTimestampCol (df : DF) : DF :=
  if df.cols.contains "TIMESTAMP" then
    { df with rows := df.rows.map (fun p =>
        (p.1, p.2.map (fun kv =>
          if kv.1 == "TIMESTAMP" then (kv.1, toDatetimeCoerce kv.2) else kv))) }
  else df

/-- Column list of pd.DataFrame(list-of-dicts): union of the keys in order
of first appearance. -/
def colsUnion (rows : List Row) : List String :=
  rows.foldl (fun acc r =>
    r.foldl (fun acc2 kv => if acc2.contains kv.1 then acc2 else acc2 ++ [kv.1]) acc) []

/-- One materialized row of pd.DataFrame(list-of-dicts): every column of
the frame, missing keys filled with NaN. -/
def materializeRow (cols : List String) (r : Row) : Row :=
  cols.map (fun c => (c, rowGet r c))

/-- pd.DataFrame(added_rows) followed by the TIMESTAMP coercion of
get_changes_from_editor: default integer index 0,1,2,… -/
def mkAddedDf (added : List Row) : DF :=
  let cols := colsUnion added
  coerceTimestampCol
    { cols := cols,
      rows := (List.range added.length).zip added |>.map
        (fun p => (Val.int (Int.ofNat p.1), materializeRow cols p.2)) }

/-- st.session_state[editor_key]: the sparse change description produced by
st.data_editor (added_rows is a list of partial rows, edited_rows a dict
from row position to a column-to-value dict, deleted_rows a list of row
positions). -/
structure EditorState where
  added_rows : List Row
  edited_rows : List (Nat × List (String × Val))
  deleted_rows : List Nat
deriving DecidableEq, Repr

/-- The three materialized row-sets returned by get_changes_from_editor:
keys "added", "edited" (empty dict or {original, new}) and "deleted". -/
structure ChangesDict where
  added : DF
  edited : Option (DF × DF)
  deleted : DF
deriving DecidableEq, Repr

/-- Application of the loop
for idx, changes_for_row in edited_rows.items():
    for col_name, new_val in changes_for_row.items():
        new_edited.loc[pk_val, col_name] = new_val
over one row's dict of cell assignments. -/
def applyRowEdits (df : DF) (lbl : Val) : List (String × Val) → DF
  | [] => df
  | (c, v) :: rest => applyRowEdits (setCellByLabel df lbl c v) lbl rest

/-- The outer loop over edited_rows.items(); each position has already been
resolved to its index label. -/
def applyAllEdits (df : DF) : List (Val × List (String × Val)) → DF
  | [] => df
  | (lbl, m) :: rest => applyAllEdits (applyRowEdits df lbl m) rest

/-- get_changes_from_editor (table_editor.py lines 48-78).  The session
state is passed as the value found under editor_key (none when the key is
absent).  An out-of-range row position raises IndexError, which the
function does not catch: the Except layer records that. -/
def get_changes_from_editor (sessionEditor : Option EditorState) (original_df : DF)
    (pk_column : String) : Except String (Option ChangesDict) :=
  match sessionEditor with
  | none => .ok none
  | some changes =>
    let added_df := mkAddedDf changes.added_rows
    let afterEdits : Except String (Option (DF × DF)) :=
      if changes.edited_rows.isEmpty then .ok none
      else
        match indexListAt original_df (changes.edited_rows.map Prod.fst) with
        | .error e => .error e
        | .ok edited_pks =>
          let original_edited := locList original_df edited_pks
          let new_edited :=
            applyAllEdits original_edited
              (edited_pks.zip (changes.edited_rows.map Prod.snd))
          .ok (some (original_edited, coerceTimestampCol new_edited))
    match afterEdits with
    | .error e => .error e
    | .ok editedPart =>
      if changes.deleted_rows.isEmpty then
        .ok (some { added := added_df, edited := editedPart,
                    deleted := { cols := [], rows := [] } })
      else
        match indexListAt original_df changes.deleted_rows with
        | .error e => .error e
        | .ok deleted_pks =>
          .ok (some { added := added_df, edited := editedPart,
                      deleted := locList original_df deleted_pks })

/-- One warehouse write issued by apply_changes:
- deleteOp carries the primary keys of the batched delete, whose predicate
  is col(pk).in_(ids);
- updateOp carries the assignment dictionary and the primary key selecting
  the row (predicate col(pk) == pk_id);
- insertOp carries the rows of the batched append-insert. -/
inductive Op where
  | deleteOp (ids : List Val)
  | updateOp (assignments : List (String × Val)) (pk_id : Val)
  | insertOp (rows : List Row)
deriving DecidableEq, Repr

/-- Outcomes of the warehouse calls: what the remote side answers to the
delete (rows_deleted or an exception), to the k-th update (rows_updated or
an exception), and to the batched insert. -/
structure Env where
  delRes : Except String Nat
  updRes : Nat → Except String Nat
  insRes : Except String Unit

/-- The results dictionary accumulated by apply_changes. -/
structure Results where
  added : Nat
  edited : Nat
  deleted : Nat
  errors : List String
deriving DecidableEq, Repr

def Results.init : Results := { added := 0, edited := 0, deleted := 0, errors := [] }

/-- Value conversion applied to each entry of the update dictionary:
NaN becomes None (both are the missing value here) and a pandas Timestamp
becomes a python datetime (both are Val.ts here). -/
def pdConvert : Val → Val
  | .na => .na
  | .ts n => .ts n
  | v => v

def convAssigns (r : Row) : Row :=
  r.map (fun kv => (kv.1, pdConvert kv.2))

/-- The update loop of apply_changes (lines 94-102): one update per row of
the edited post-image, each in its own try/except, accumulating
rows_updated on success and one error message on failure.  k numbers the
update calls for the environment. -/
def updateLoop (pk_column : String) (env : Env) :
    Nat → List (Val × Row) → Results → List Op → Results × List Op
  | _, [], res, tr => (res, tr)
  | k, (pk_id, row) :: rest, res, tr =>
    let assigns := convAssigns (dropKey row pk_column)
    let tr' := tr ++ [Op.updateOp assigns pk_id]
    match env.updRes k with
    | .ok n => updateLoop pk_column env (k + 1) rest { res with edited := res.edited + n } tr'
    | .error e =>
      updateLoop pk_column env (k + 1) rest
        { res with errors := res.errors ++ ["Update " ++ pk_id.render ++ ": " ++ e] } tr'

/-- The Deletions block (lines 85-90): issue the batched delete when there
are rows to delete.  It has no local try/except, so a raising delete sets
the abort flag: control transfers to the outer except handler, which
records the "General" message. -/
def applyDeletions (pk_column : String) (changes : ChangesDict) (env : Env) :
    Results × List Op × Bool :=
  if changes.deleted.isEmpty then (Results.init, [], false)
  else
    let deleted_ids := changes.deleted.rows.map (fun p => rowGet p.2 pk_column)
    if deleted_ids.isEmpty then (Results.init, [], false)
    else
      match env.delRes with
      | .ok n => ({ Results.init with deleted := n }, [Op.deleteOp deleted_ids], false)
      | .error e =>
        ({ Results.init with errors := ["General: " ++ e] }, [Op.deleteOp deleted_ids], true)

/-- The Additions block (lines 103-110): one batched append-insert of the
added rows minus the primary-key column, in a local try/except. -/
def applyAdditions (pk_column : String) (changes : ChangesDict) (env : Env)
    (res1 : Results) (tr1 : List Op) : Results × List Op :=
  if changes.added.isEmpty then (res1, tr1)
  else
    let added_for_insert := changes.added.rows.map (fun p => dropKey p.2 pk_column)
    match env.insRes with
    | .ok _ =>
      ({ res1 with added := added_for_insert.length },
       tr1 ++ [Op.insertOp added_for_insert])
    | .error e =>
      ({ res1 with errors := res1.errors ++ ["Add: " ++ e] },
       tr1 ++ [Op.insertOp added_for_insert])

/-- apply_changes (table_editor.py lines 80-112), instrumented with the
trace of warehouse writes it issues: the Deletions block, then (unless it
aborted to the outer except handler) the update loop over the edited
post-image, then the Additions block. -/
def apply_changes (pk_column : String) (changes : ChangesDict) (env : Env) :
    Results × List Op :=
  match applyDeletions pk_column changes env with
  | (res0, tr0, true) => (res0, tr0)
  | (res0, tr0, false) =>
    match changes.edited with
    | none => applyAdditions pk_column changes env res0 tr0
    | some (_, new_df) =>
      match updateLoop pk_column env 0 new_df.rows res0 tr0 with
      | (res1, tr1) => applyAdditions pk_column changes env res1 tr1

def Op.isDelete : Op → Bool
  | .deleteOp _ => true
  | _ => false

def Op.isUpdate : Op → Bool
  | .updateOp _ _ => true
  | _ => false

def Op.isInsert : Op → Bool
  | .insertOp _ => true
  | _ => false

def Op.asUpdate? : Op → Option (List (String × Val) × Val)
  | .updateOp a p => some (a, p)
  | _ => none

/-- True when the batched delete is issued and the environment makes it
raise: the condition under which the outer except handler fires. -/
def deleteAborts (changes : ChangesDict) (env : Env) : Bool :=
  !changes.deleted.isEmpty &&
    (match env.delRes with | .ok _ => false | .error _ => true)

/-! Configuration constants (table_editor.py lines 11-13). -/

def TABLE_NAME : String := "DEMO.DT_TUTORIAL.SYNTHETIC_BATCH_DATA"
def PK_COLUMN : String := "BATCH_ID"
def EDITOR_KEY : String := "batch_editor"

/-- Ordering of cell values, modelling the warehouse ORDER BY ... ASC
(nulls last, each type ordered within itself). -/
def vle (a b : Val) : Bool :=
  match a, b with
  | .int m, .int n => m ≤ n
  | .int _, _ => true
  | .ts _, .int _ => false
  | .ts m, .ts n => m ≤ n
  | .ts _, _ => true
  | .str _, .int _ => false
  | .str _, .ts _ => false
  | .str s, .str t => s ≤ t
  | .str _, .na => true
  | .na, .na => true
  | .na, _ => false

/-- The remote table as the warehouse holds it. -/
structure RemoteTable where
  cols : List String
  rows : List Row
deriving DecidableEq, Repr

/-- Schema used by get_data when the fetched frame is empty (line 34). -/
def schemaCols : List String :=
  [PK_COLUMN, "BATCH_NAME", "PROJECT", "TIMESTAMP", "PERSON"]

def rowLe (pk_column : String) (r1 r2 : Row) : Prop :=
  vle (rowGet r1 pk_column) (rowGet r2 pk_column) = true

instance (pk_column : String) : DecidableRel (rowLe pk_column) :=
  fun r1 r2 => inferInstanceAs (Decidable (_ = true))

/-- session.table(name).order_by(col(pk).asc()).limit(100): the first 100
rows in ascending primary-key order. -/
def orderLimit (pk_column : String) (rows : List Row) : List Row :=
  (List.insertionSort (rowLe pk_column) rows).take 100

/-- df.set_index(col, drop=False): label every row with its value in the
given column; a pandas KeyError when the column does not exist. -/
def setIndex (cols : List String) (rows : List Row) (pk_column : String) :
    Except String DF :=
  if cols.contains pk_column then
    .ok { cols := cols, rows := rows.map (fun r => (rowGet r pk_column, r)) }
  else .error ("KeyError: " ++ pk_column)

/-- pd.to_datetime on a whole column with default errors="raise". -/
def coerceRowStrict (r : Row) : Except String Row :=
  match r with
  | [] => .ok []
  | kv :: rest =>
    match (if kv.1 == "TIMESTAMP" then toDatetimeStrict kv.2 else .ok kv.2) with
    | .error e => .error e
    | .ok v =>
      match coerceRowStrict rest with
      | .error e => .error e
      | .ok rest' => .ok ((kv.1, v) :: rest')

def coerceRowsStrict : List Row → Except String (List Row)
  | [] => .ok []
  | r :: rest =>
    match coerceRowStrict r with
    | .error e => .error e
    | .ok r' =>
      match coerceRowsStrict rest with
      | .error e => .error e
      | .ok rest' => .ok (r' :: rest')

/-- Outcome of one run of get_data: a returned DataFrame, an st.stop, or
an exception the function itself raises and does not catch. -/
inductive GOut where
  | table (df : DF)
  | stopped
  | raised (msg : String)
deriving DecidableEq, Repr

/-- The body of get_data's try block (lines 29-43), given the outcome of
the remote fetch (to_pandas): fetch, empty-frame fallback schema,
TIMESTAMP coercion, set_index. -/
def getDataTry (remote : RemoteTable) (pk_column : String)
    (fetchErr : Option String) : Except String (DF × List String) :=
  match fetchErr with
  | some e => .error e
  | none =>
    let fetched := orderLimit pk_column remote.rows
    if fetched.isEmpty then
      match coerceRowsStrict ([] : List Row) with
      | .error e => .error e
      | .ok _ =>
        match setIndex schemaCols [] pk_column with
        | .error e => .error e
        | .ok df => .ok (df, ["Warning: table appears to be empty", "Fetched 0 rows."])
    else
      match coerceRowsStrict (if remote.cols.contains "TIMESTAMP" then fetched else []) with
      | .error e => .error e
      | .ok coerced =>
        let rows := if remote.cols.contains "TIMESTAMP" then coerced else fetched
        match setIndex remote.cols rows pk_column with
        | .error e => .error e
        | .ok df => .ok (df, ["Fetched " ++ toString df.rows.length ++ " rows."])

/-- get_data (table_editor.py lines 25-46).  The pk-not-found branch calls
st.stop, which escapes the except-Exception handler.  The except handler
displays the error and then evaluates pd.DataFrame().set_index(PK_COLUMN,
drop=False); an empty frame has no PK_COLUMN column, so that expression
itself raises a KeyError out of get_data. -/
def get_data (remote : RemoteTable) (pk_column : String)
    (fetchErr : Option String) : List String × GOut :=
  let fetching := "Fetching data from " ++ TABLE_NAME ++ "..."
  if fetchErr.isNone && !(orderLimit pk_column remote.rows).isEmpty
      && !remote.cols.contains pk_column then
    ([fetching, "PK " ++ pk_column ++ " not found. Please check config."], .stopped)
  else
    match getDataTry remote pk_column fetchErr with
    | .ok (df, msgs) => ([fetching] ++ msgs, .table df)
    | .error e =>
      match setIndex ([] : List String) [] PK_COLUMN with
      | .error e2 => ([fetching, "Error fetching data: " ++ e], .raised e2)
      | .ok df => ([fetching, "Error fetching data: " ++ e], .table df)

/-! style_changed_cells (table_editor.py lines 115-137). -/

def yellowHighlight : String := "background-color: #ffff99"

def redHighlight : String := "background-color: #ffcccc"

/-- original_df.reindex(new_df.index) restricted to one label: the row
carrying the label, or an all-NaN row over original_df's columns when the
label is absent from original_df. -/
def reindexRow (original_df : DF) (lbl : Val) : Row :=
  match original_df.rows.find? (fun p => p.1 == lbl) with
  | some p => p.2
  | none => original_df.cols.map (fun c => (c, Val.na))

/-- The style string computed for one cell: empty when unchanged, a yellow
highlight when changed (missing-in-both counts as unchanged), and the
defensive red highlight when the column is missing from the original
frame (the KeyError branch). -/
def styleCell (new_df original_df : DF) (lbl : Val) (c : String) : String :=
  let new_val := rowGet (locRow new_df lbl).2 c
  if original_df.cols.contains c then
    let original_val := rowGet (reindexRow original_df lbl) c
    if new_val.isna && original_val.isna then ""
    else if pdNe new_val original_val then yellowHighlight
    else ""
  else redHighlight

/-- style_changed_cells: a frame of style strings over new_df's index and
columns. -/
def style_changed_cells (new_df original_df : DF) :
    List (Val × List (String × String)) :=
  new_df.rows.map (fun p =>
    (p.1, new_df.cols.map (fun c => (c, styleCell new_df original_df p.1 c))))

/-! The page's interaction loop (table_editor.py lines 171-261), as a step
function over the session state.  One step is one script run triggered by
a user event; the warehouse writes a run issues are collected as actions. -/

/-- The page's session state. -/
structure AppState where
  original_data : DF
  show_confirmation : Bool
  changes_to_confirm : Option ChangesDict
  editor_instance_id : Nat
deriving Repr

/-- A user event driving one script run: pressing Review Changes (with the
editor's change description in session state), pressing Confirm (the
refetched table is the data get_data returns afterwards), pressing Cancel,
or anything else. -/
inductive UIEvent where
  | review (est : EditorState)
  | confirm (refetched : DF)
  | cancel
  | idle

/-- Externally visible side effects of one script run. -/
inductive Action where
  | applyCall (changes : ChangesDict)
  | refetchCall
deriving DecidableEq, Repr

/-- The test of line 177: no additions, no edits, no deletions. -/
def noChanges (c : ChangesDict) : Bool :=
  c.added.isEmpty && c.edited.isNone && c.deleted.isEmpty

/-- The has_changes flag of the confirmation section (lines 190-222). -/
def hasChanges (c : ChangesDict) : Bool :=
  !c.deleted.isEmpty || !c.added.isEmpty || c.edited.isSome

/-- The confirmation section is rendered with its two buttons only when
show_confirmation is set, a pending diff exists, and it is non-empty. -/
def confirmGuard (s : AppState) : Option ChangesDict :=
  match s.changes_to_confirm with
  | some c => if s.show_confirmation && hasChanges c then some c else none
  | none => none

/-- One script run.  Review recomputes the pending diff from the editor
state (an IndexError aborts the run before the assignment lands); Confirm
applies the pending diff and clears the confirmation state; Cancel clears
the confirmation state without issuing any warehouse write. -/
def step (s : AppState) (ev : UIEvent) : AppState × List Action :=
  match ev with
  | .idle => (s, [])
  | .review est =>
    match get_changes_from_editor (some est) s.original_data PK_COLUMN with
    | .error _ => (s, [])
    | .ok none => ({ s with changes_to_confirm := none }, [])
    | .ok (some c) =>
      if noChanges c then
        ({ s with changes_to_confirm := some c, show_confirmation := false }, [])
      else
        ({ s with changes_to_confirm := some c, show_confirmation := true }, [])
  | .confirm refetched =>
    match confirmGuard s with
    | none => (s, [])
    | some c =>
      ({ s with original_data := refetched,
                show_confirmation := false,
                changes_to_confirm := none,
                editor_instance_id := s.editor_instance_id + 1 },
       [Action.applyCall c, Action.refetchCall])
  | .cancel =>
    match confirmGuard s with
    | none => (s, [])
    | some _ =>
      ({ s with show_confirmation := false,
                changes_to_confirm := none,
                editor_instance_id := s.editor_instance_id + 1 },
       [])

/-- The st.data_editor call at lines 161-169 disables editing of the
primary-key column. -/
def editorDisabledColumns : List String := [PK_COLUMN]

/-! Claim-side descriptions the theorems compare the code against. -/

/-- The rows of the edited post-image (empty when there are no edits). -/
def editedRows (changes : ChangesDict) : List (Val × Row) :=
  match changes.edited with
  | none => []
  | some (_, new_df) => new_df.rows

def okCount : Except String Nat → Nat
  | .ok n => n
  | .error _ => 0

def errOf : Except String Nat → String
  | .ok _ => ""
  | .error e => e

def errOfU : Except String Unit → String
  | .ok _ => ""
  | .error e => e

/-- Sum of rows_updated over the update calls numbered from k, one per
edited row, counting a failed call as zero. -/
def updTotal (env : Env) : Nat → List (Val × Row) → Nat
  | _, [] => 0
  | k, _ :: rest => okCount (env.updRes k) + updTotal env (k + 1) rest

/-- The error messages of the failed update calls, in call order. -/
def updErrors (env : Env) : Nat → List (Val × Row) → List String
  | _, [] => []
  | k, (pk_id, _) :: rest =>
    (match env.updRes k with
     | .ok _ => []
     | .error e => ["Update " ++ pk_id.render ++ ": " ++ e]) ++ updErrors env (k + 1) rest

/-- The primary keys the batched delete targets. -/
def deletedIds (pk_column : String) (changes : ChangesDict) : List Val :=
  changes.deleted.rows.map (fun p => rowGet p.2 pk_column)

/-- The results dictionary as the spec describes it: deleted is what the
delete reports (0 when it is not issued or fails), edited the sum of
rows_updated over the issued updates, added the row count of a successful
batched insert, and one message per failed operation. -/
def resultsSpec (changes : ChangesDict) (env : Env) : Results :=
  if deleteAborts changes env then
    { Results.init with errors := ["General: " ++ errOf env.delRes] }
  else
    { deleted := if changes.deleted.isEmpty then 0 else okCount env.delRes,
      edited := updTotal env 0 (editedRows changes),
      added :=
        if changes.added.isEmpty then 0
        else match env.insRes with
          | .ok _ => changes.added.rows.length
          | .error _ => 0,
      errors :=
        updErrors env 0 (editedRows changes) ++
          (if changes.added.isEmpty then []
           else match env.insRes with
             | .ok _ => []
             | .error e => ["Add: " ++ e]) }

/-- The warehouse writes the run issues when the delete does not abort it:
the batched delete (when there are deletions), one update per row of the
edited post-image, the batched insert (when there are additions). -/
def expectedTrace (pk_column : String) (changes : ChangesDict) : List Op :=
  (if changes.deleted.isEmpty then [] else [Op.deleteOp (deletedIds pk_column changes)]) ++
    (editedRows changes).map
      (fun p => Op.updateOp (convAssigns (dropKey p.2 pk_column)) p.1) ++
    (if changes.added.isEmpty then []
     else [Op.insertOp (changes.added.rows.map (fun p => dropKey p.2 pk_column))])

/-- The full trace: the delete-abort path only ever issues the delete. -/
def traceSpec (pk_column : String) (changes : ChangesDict) (env : Env) : List Op :=
  if deleteAborts changes env then [Op.deleteOp (deletedIds pk_column changes)]
  else expectedTrace pk_column changes

/-- Equality of two cells treating two missing values as equal (and a
missing value as different from any non-missing one). -/
def naAwareEq (a b : Val) : Bool :=
  (a.isna && b.isna) || (!a.isna && !b.isna && a == b)

/-- Cell access through the index label, as the claims speak of it. -/
def cellOf (df : DF) (lbl : Val) (c : String) : Val :=
  rowGet (locRow df lbl).2 c

/-- Style-string access in one row of the style frame. -/
def styleGet (r : List (String × String)) (c : String) : String :=
  match r.find? (fun kv => kv.1 == c) with
  | some kv => kv.2
  | none => ""

/-- Editor-state well-formedness: every edited or deleted entry names a
valid row position of the original table. -/
def validPositions (est : EditorState) (df : DF) : Bool :=
  est.edited_rows.all (fun pr => pr.1 < df.rows.length) &&
    est.deleted_rows.all (fun i => i < df.rows.length)

/-- The index label at a row position. -/
def labelAt (df : DF) (i : Nat) : Val :=
  (df.rows.getD i (Val.na, [])).1

/-- The original row at a row position. -/
def origRowAt (df : DF) (i : Nat) : Val × Row :=
  df.rows.getD i (Val.na, [])

/-- Sequential application of one row's cell assignments to a row. -/
def rowSetAll (r : Row) (m : List (String × Val)) : Row :=
  m.foldl (fun acc cv => rowSet acc cv.1 cv.2) r

/-- All cell assignments the edit loop performs on the row labelled lbl,
in loop order. -/
def entriesFor (entries : List (Val × List (String × Val))) (lbl : Val) :
    List (String × Val) :=
  ((entries.filter (fun e => e.1 == lbl)).map Prod.snd).flatten

/-- The value the spec predicts for the cell (pr, c) of the post-image
before the TIMESTAMP pass: the listed new value when the cell is listed,
the pre-image value otherwise. -/
def editBase (df : DF) (pr : Nat × List (String × Val)) (c : String) : Val :=
  match pr.2.find? (fun cv => cv.1 == c) with
  | some cv => cv.2
  | none => rowGet (origRowAt df pr.1).2 c

/-- The value the code's post-image holds at (pr, c): the spec value, with
the TIMESTAMP column re-coerced to datetime. -/
def postCellSpec (df : DF) (pr : Nat × List (String × Val)) (c : String) : Val :=
  if df.cols.contains "TIMESTAMP" && c == "TIMESTAMP" then
    toDatetimeCoerce (editBase df pr c)
  else editBase df pr c

/-- The TIMESTAMP cell of the first row of the post-image, for exhibiting
the coercion on a concrete input. -/
def postImageCell (r : Except String (Option ChangesDict)) : Val :=
  match r with
  | .ok (some c) =>
    match c.edited with
    | some (_, post) => rowGet (post.rows.getD 0 (Val.na, [])).2 "TIMESTAMP"
    | none => .str "unreachable"
  | _ => .str "unreachable"

/-! Concrete inputs used by counterexamples and witnesses. -/

def dfW : DF :=
  { cols := ["BATCH_ID", "TIMESTAMP", "PERSON"],
    rows := [(.int 1, [("BATCH_ID", .int 1), ("TIMESTAMP", .ts 10), ("PERSON", .str "a")]),
             (.int 2, [("BATCH_ID", .int 2), ("TIMESTAMP", .ts 20), ("PERSON", .str "b")])] }

/-- An editor state whose only edit writes an unparseable string into the
TIMESTAMP column. -/
def estTsGarbage : EditorState :=
  { added_rows := [],
    edited_rows := [(0, [("TIMESTAMP", .str "garbage")])],
    deleted_rows := [] }

/-- An editor state naming a row position outside the two-row table. -/
def estOutOfRange : EditorState :=
  { added_rows := [], edited_rows := [], deleted_rows := [5] }

/-- A well-formed editor state touching all three change types. -/
def estFull : EditorState :=
  { added_rows := [[("BATCH_NAME", .str "x"), ("TIMESTAMP", .str "5")]],
    edited_rows := [(0, [("PERSON", .str "z")])],
    deleted_rows := [1] }

def envAllOk : Env :=
  { delRes := .ok 1, updRes := fun _ => .ok 1, insRes := .ok () }

def envDelRaises : Env :=
  { delRes := .error "boom", updRes := fun _ => .ok 1, insRes := .ok () }

def envUpdInsRaise : Env :=
  { delRes := .ok 1, updRes := fun _ => .error "u", insRes := .error "i" }

/-- A diff with one edited row and one deleted row. -/
def changesEditAndDelete : ChangesDict :=
  { added := { cols := [], rows := [] },
    edited := some
      ({ cols := ["BATCH_ID", "PERSON"],
         rows := [(.int 1, [("BATCH_ID", .int 1), ("PERSON", .str "a")])] },
       { cols := ["BATCH_ID", "PERSON"],
         rows := [(.int 1, [("BATCH_ID", .int 1), ("PERSON", .str "z")])] }),
    deleted :=
      { cols := ["BATCH_ID", "PERSON"],
        rows := [(.int 2, [("BATCH_ID", .int 2), ("PERSON", .str "b")])] } }

/-- A diff with one added row and one deleted row. -/
def changesAddAndDelete : ChangesDict :=
  { added :=
      { cols := ["BATCH_NAME"],
        rows := [(.int 0, [("BATCH_NAME", .str "x")])] },
    edited := none,
    deleted :=
      { cols := ["BATCH_ID", "PERSON"],
        rows := [(.int 2, [("BATCH_ID", .int 2), ("PERSON", .str "b")])] } }

/-- dfW with one cell edited (PERSON of the first row). -/
def dfWedited : DF :=
  { cols := ["BATCH_ID", "TIMESTAMP", "PERSON"],
    rows := [(.int 1, [("BATCH_ID", .int 1), ("TIMESTAMP", .ts 10), ("PERSON", .str "z")]),
             (.int 2, [("BATCH_ID", .int 2), ("TIMESTAMP", .ts 20), ("PERSON", .str "b")])] }

/-- A three-row remote table stored out of primary-key order. -/
def remoteW : RemoteTable :=
  { cols := ["BATCH_ID", "PERSON"],
    rows := [[("BATCH_ID", .int 3), ("PERSON", .str "c")],
             [("BATCH_ID", .int 1), ("PERSON", .str "a")],
             [("BATCH_ID", .int 2), ("PERSON", .str "b")]] }

/-! Helper lemmas. -/

theorem indexAt_ok (df : DF) (i : Nat) (h : i < df.rows.length) :
    indexAt df i = .ok (labelAt df i) := by
  have hg : df.rows[i]? = some df.rows[i] := List.getElem?_eq_getElem h
  simp [indexAt, labelAt, List.getD_eq_getElem?_getD, hg]

theorem indexListAt_ok (df : DF) :
    ∀ is : List Nat, (∀ i ∈ is, i < df.rows.length) →
      indexListAt df is = .ok (is.map (labelAt df)) := by
  intro is
  induction is with
  | nil => intro _; rfl
  | cons i is ih =>
    intro h
    have hi : i < df.rows.length := h i (by simp)
    have ht := ih (fun j hj => h j (by simp [hj]))
    simp [indexListAt, indexAt_ok df i hi, ht]

/-- C10: get_changes_from_editor returns None for an absent editor key and
only then; when the key is present and every edited/deleted entry names a
valid row position, it returns the three-entry changes dictionary.  (As
stated the claim is false: an out-of-range position raises IndexError
instead of returning a dictionary.) -/
theorem get_changes_key_presence :
    (∀ (s : Option EditorState) (df : DF) (pk : String),
        get_changes_from_editor s df pk = Except.ok none ↔ s = none) ∧
    (∀ (est : EditorState) (df : DF) (pk : String), validPositions est df = true →
        ∃ c, get_changes_from_editor (some est) df pk = Except.ok (some c)) := by
  constructor
  · intro s df pk
    cases s with
    | none => simp [get_changes_from_editor]
    | some est =>
      simp only [get_changes_from_editor]
      constructor
      · intro h
        exfalso
        split at h
        · simp at h
        · split at h
          · simp at h
          · split at h <;> simp at h
      · intro h
        exact absurd h (by simp)
  · intro est df pk hv
    simp only [validPositions, Bool.and_eq_true, List.all_eq_true, decide_eq_true_eq] at hv
    obtain ⟨he, hd⟩ := hv
    have heM : ∀ i ∈ est.edited_rows.map Prod.fst, i < df.rows.length := by
      intro i hi
      obtain ⟨pr, hpr, rfl⟩ := List.mem_map.mp hi
      exact he pr hpr
    simp only [get_changes_from_editor]
    by_cases h1 : est.edited_rows.isEmpty <;> by_cases h2 : est.deleted_rows.isEmpty <;>
      simp [h1, h2, indexListAt_ok df _ heM, indexListAt_ok df _ hd]

/-- C10 counterexample: with the editor key present but a deleted entry
naming position 5 of a two-row table, get_changes_from_editor raises
IndexError rather than returning a dictionary. -/
theorem get_changes_index_error_cex :
    get_changes_from_editor (some estOutOfRange) dfW PK_COLUMN =
      Except.error "IndexError: index out of range" := by
  rfl

/-- C10 witness: the amended theorem applied at a concrete present key. -/
theorem get_changes_key_presence_witness :
    ∃ c, get_changes_from_editor (some estFull) dfW PK_COLUMN = Except.ok (some c) :=
  get_changes_key_presence.2 estFull dfW PK_COLUMN (by decide)

/-- C6: on a fetch failure get_data displays the error message, but its
own error handler then evaluates pd.DataFrame().set_index(PK_COLUMN),
which raises a KeyError out of get_data instead of returning the intended
empty table. -/
theorem get_data_error_handler_raises :
    ∀ (remote : RemoteTable) (e : String),
      get_data remote PK_COLUMN (some e) =
        (["Fetching data from " ++ TABLE_NAME ++ "...", "Error fetching data: " ++ e],
         GOut.raised ("KeyError: " ++ PK_COLUMN)) := by
  intro remote e
  rfl

theorem confirmGuard_some {s : AppState} {c0 : ChangesDict}
    (h : confirmGuard s = some c0) :
    s.show_confirmation = true ∧ s.changes_to_confirm = some c0 ∧
      hasChanges c0 = true := by
  unfold confirmGuard at h
  cases hcc : s.changes_to_confirm with
  | none => rw [hcc] at h; simp at h
  | some c1 =>
    simp only [hcc] at h
    by_cases hb : (s.show_confirmation && hasChanges c1) = true
    · rw [if_pos hb] at h
      injection h with h2
      subst h2
      simp only [Bool.and_eq_true] at hb
      exact ⟨hb.1, rfl, hb.2⟩
    · rw [if_neg hb] at h
      exact absurd h (by simp)

/-- C8: the apply_changes call is issued only by the confirm event, and
only from a state showing the confirmation section for a non-empty
pending diff; the cancel branch issues no warehouse write and clears the
pending diff and the confirmation flag. -/
theorem confirmation_gates_apply :
    (∀ (s : AppState) (ev : UIEvent) (c : ChangesDict),
        Action.applyCall c ∈ (step s ev).2 →
        ∃ d, ev = UIEvent.confirm d ∧ s.show_confirmation = true ∧
          s.changes_to_confirm = some c ∧ hasChanges c = true) ∧
    (∀ (s : AppState) (c : ChangesDict),
        s.show_confirmation = true → s.changes_to_confirm = some c →
        hasChanges c = true →
        (step s UIEvent.cancel).2 = [] ∧
        (step s UIEvent.cancel).1.show_confirmation = false ∧
        (step s UIEvent.cancel).1.changes_to_confirm = none) := by
  constructor
  · intro s ev c h
    cases ev with
    | idle => simp [step] at h
    | review est =>
      exfalso
      simp only [step] at h
      split at h <;> first
        | simp at h
        | (split at h <;> simp at h)
    | cancel =>
      exfalso
      simp only [step] at h
      split at h <;> simp at h
    | confirm d =>
      refine ⟨d, rfl, ?_⟩
      simp only [step] at h
      cases hg : confirmGuard s with
      | none => rw [hg] at h; simp at h
      | some c0 =>
        rw [hg] at h
        simp only [List.mem_cons] at h
        have hc : c = c0 := by
          rcases h with h | h | h
          · cases h; rfl
          · exact absurd h (by simp)
          · simp at h
        subst hc
        obtain ⟨h1, h2, h3⟩ := confirmGuard_some hg
        exact ⟨h1, h2, h3⟩
  · intro s c hs hc hh
    simp [step, confirmGuard, hc, hs, hh]

/-- C8 witness: the theorem applied at a concrete confirming state. -/
theorem confirmation_gates_apply_witness :
    (∃ d, UIEvent.confirm dfW = UIEvent.confirm d ∧
      ({ original_data := dfW, show_confirmation := true,
         changes_to_confirm := some changesEditAndDelete,
         editor_instance_id := 0 } : AppState).show_confirmation = true ∧
      ({ original_data := dfW, show_confirmation := true,
         changes_to_confirm := some changesEditAndDelete,
         editor_instance_id := 0 } : AppState).changes_to_confirm =
        some changesEditAndDelete ∧
      hasChanges changesEditAndDelete = true) ∧
    ((step { original_data := dfW, show_confirmation := true,
             changes_to_confirm := some changesEditAndDelete,
             editor_instance_id := 0 } UIEvent.cancel).2 = [] ∧
     (step { original_data := dfW, show_confirmation := true,
             changes_to_confirm := some changesEditAndDelete,
             editor_instance_id := 0 } UIEvent.cancel).1.show_confirmation = false ∧
     (step { original_data := dfW, show_confirmation := true,
             changes_to_confirm := some changesEditAndDelete,
             editor_instance_id := 0 } UIEvent.cancel).1.changes_to_confirm = none) :=
  ⟨confirmation_gates_apply.1 _ (UIEvent.confirm dfW) changesEditAndDelete (by decide),
   confirmation_gates_apply.2 _ changesEditAndDelete rfl rfl (by decide)⟩

theorem rowGet_map_pairs (f : String → Val) (c : String) :
    ∀ cols : List String, c ∈ cols →
      rowGet (cols.map (fun c' => (c', f c'))) c = f c := by
  intro cols
  induction cols with
  | nil => intro h; cases h
  | cons c0 rest ih =>
    intro h
    by_cases h0 : (c0 == c) = true
    · have : c0 = c := by simpa using h0
      subst this
      simp [rowGet, List.find?]
    · have hmem : c ∈ rest := by
        rcases List.mem_cons.mp h with h1 | h1
        · exact absurd (by simpa using h1.symm) h0
        · exact h1
      have := ih hmem
      simp only [rowGet, List.map, List.find?, h0] at this ⊢
      exact this

theorem styleGet_map_pairs (f : String → String) (c : String) :
    ∀ cols : List String, c ∈ cols →
      styleGet (cols.map (fun c' => (c', f c'))) c = f c := by
  intro cols
  induction cols with
  | nil => intro h; cases h
  | cons c0 rest ih =>
    intro h
    by_cases h0 : (c0 == c) = true
    · have : c0 = c := by simpa using h0
      subst this
      simp [styleGet, List.find?]
    · have hmem : c ∈ rest := by
        rcases List.mem_cons.mp h with h1 | h1
        · exact absurd (by simpa using h1.symm) h0
        · exact h1
      have := ih hmem
      simp only [styleGet, List.map, List.find?, h0] at this ⊢
      exact this

theorem rowGet_all_na (c : String) :
    ∀ cols : List String, rowGet (cols.map (fun c' => (c', Val.na))) c = Val.na := by
  intro cols
  induction cols with
  | nil => rfl
  | cons c0 rest ih =>
    by_cases h0 : (c0 == c) = true
    · simp [rowGet, List.find?, h0]
    · simp only [rowGet, List.map, List.find?, h0] at ih ⊢
      exact ih

/-- The cell original_comp.loc[lbl, c] read by style_changed_cells equals
the label-based cell of the original frame, whether or not the label is
present there. -/
theorem reindexRow_cell (original_df : DF) (lbl : Val) (c : String) :
    rowGet (reindexRow original_df lbl) c = cellOf original_df lbl c := by
  unfold reindexRow cellOf locRow
  cases hf : original_df.rows.find? (fun p => p.1 == lbl) with
  | some p => rfl
  | none => exact rowGet_all_na c original_df.cols

theorem find?_fst_of_nodup :
    ∀ (l : List (Val × Row)), (l.map Prod.fst).Nodup →
      ∀ p ∈ l, l.find? (fun q => q.1 == p.1) = some p := by
  intro l
  induction l with
  | nil => intro _ p hp; cases hp
  | cons q rest ih =>
    intro hn p hp
    simp only [List.map, List.nodup_cons] at hn
    rcases List.mem_cons.mp hp with h1 | h1
    · subst h1
      simp [List.find?]
    · have hne : (q.1 == p.1) = false := by
        apply beq_eq_false_iff_ne.mpr
        intro hcontra
        exact hn.1 (hcontra ▸ List.mem_map_of_mem Prod.fst h1)
      simp only [List.find?, hne]
      exact ih hn.2 p h1

/-- On a nodup-labelled frame, label-based row access at the label of the
i-th row returns the i-th row. -/
theorem locRow_labelAt (df : DF) (hn : df.labels.Nodup) (i : Nat)
    (hi : i < df.rows.length) :
    locRow df (labelAt df i) = df.rows.getD i (Val.na, []) := by
  have hmem : df.rows.getD i (Val.na, []) ∈ df.rows := by
    rw [List.getD_eq_getElem?_getD, List.getElem?_eq_getElem hi]
    exact List.getElem_mem hi
  have hlbl : labelAt df i = (df.rows.getD i (Val.na, [])).1 := rfl
  unfold locRow
  rw [hlbl, find?_fst_of_nodup df.rows hn _ hmem]

theorem style_core (a b : Val) :
    ((if a.isna && b.isna then "" else if pdNe a b then yellowHighlight else "") =
        yellowHighlight ↔ naAwareEq a b = false) ∧
      ((if a.isna && b.isna then "" else if pdNe a b then yellowHighlight else "") =
          yellowHighlight ∨
        (if a.isna && b.isna then "" else if pdNe a b then yellowHighlight else "") = "") := by
  by_cases ha : a.isna = true <;> by_cases hb : b.isna = true <;> by_cases he : a = b <;>
    simp [ha, hb, he, pdNe, naAwareEq, yellowHighlight, bne]

/-- C4: a cell of the style frame is highlighted exactly when the new
value differs from the original value under missing-aware equality; every
cell is either highlighted yellow or left unstyled. -/
theorem style_changed_cells_iff (new_df original_df : DF)
    (hn : new_df.labels.Nodup) (hcols : original_df.cols = new_df.cols)
    (i : Nat) (hi : i < new_df.rows.length) (c : String) (hc : c ∈ new_df.cols) :
    (styleGet ((style_changed_cells new_df original_df).getD i (Val.na, [])).2 c =
        yellowHighlight ↔
      naAwareEq (cellOf new_df (labelAt new_df i) c)
          (cellOf original_df (labelAt new_df i) c) = false) ∧
    (styleGet ((style_changed_cells new_df original_df).getD i (Val.na, [])).2 c =
        yellowHighlight ∨
      styleGet ((style_changed_cells new_df original_df).getD i (Val.na, [])).2 c = "") := by
  have hrow : (style_changed_cells new_df original_df).getD i (Val.na, []) =
      ((new_df.rows.getD i (Val.na, [])).1,
        new_df.cols.map (fun c' => (c', styleCell new_df original_df
          (new_df.rows.getD i (Val.na, [])).1 c'))) := by
    unfold style_changed_cells
    rw [List.getD_eq_getElem?_getD, List.getElem?_map, List.getElem?_eq_getElem hi]
    rw [List.getD_eq_getElem?_getD, List.getElem?_eq_getElem hi]
    rfl
  rw [hrow]
  have hsty : styleGet (new_df.cols.map (fun c' => (c', styleCell new_df original_df
      (new_df.rows.getD i (Val.na, [])).1 c'))) c =
      styleCell new_df original_df (new_df.rows.getD i (Val.na, [])).1 c :=
    styleGet_map_pairs _ c new_df.cols hc
  simp only [hsty]
  have hlbl : (new_df.rows.getD i (Val.na, [])).1 = labelAt new_df i := rfl
  unfold styleCell
  have hcontains : original_df.cols.contains c = true := by
    rw [hcols]
    exact List.elem_eq_true_of_mem hc
  rw [hcontains]
  simp only [if_true]
  rw [hlbl, reindexRow_cell]
  have hcell : rowGet (locRow new_df (labelAt new_df i)).2 c =
      cellOf new_df (labelAt new_df i) c := rfl
  rw [hcell]
  exact style_core _ _

/-! The apply_changes characterization. -/

theorem updateLoop_spec (pk_column : String) (env : Env) :
    ∀ (rows : List (Val × Row)) (k : Nat) (res : Results) (tr : List Op),
      updateLoop pk_column env k rows res tr =
        ({ res with edited := res.edited + updTotal env k rows,
                    errors := res.errors ++ updErrors env k rows },
         tr ++ rows.map (fun p => Op.updateOp (convAssigns (dropKey p.2 pk_column)) p.1)) := by
  intro rows
  induction rows with
  | nil => intro k res tr; simp [updateLoop, updTotal, updErrors]
  | cons p rest ih =>
    intro k res tr
    obtain ⟨pk_id, row⟩ := p
    simp only [updateLoop]
    cases hu : env.updRes k with
    | ok n =>
      simp [ih, updTotal, updErrors, hu, okCount, Nat.add_assoc]
    | error e =>
      simp [ih, updTotal, updErrors, hu, okCount, List.append_assoc]

theorem applyDeletions_eq (pk_column : String) (changes : ChangesDict) (env : Env) :
    applyDeletions pk_column changes env =
      ((if deleteAborts changes env then
          { Results.init with errors := ["General: " ++ errOf env.delRes] }
        else if changes.deleted.isEmpty then Results.init
        else { Results.init with deleted := okCount env.delRes }),
       (if changes.deleted.isEmpty then []
        else [Op.deleteOp (deletedIds pk_column changes)]),
       deleteAborts changes env) := by
  unfold applyDeletions deleteAborts deletedIds
  by_cases hD : changes.deleted.isEmpty = true
  · simp [hD]
  · have hD' : changes.deleted.isEmpty = false := eq_false_of_ne_true hD
    have hIds : (changes.deleted.rows.map (fun p => rowGet p.2 pk_column)).isEmpty = false := by
      cases hrows : changes.deleted.rows with
      | nil => exact absurd (by simp [DF.isEmpty, hrows]) hD
      | cons a l => rfl
    cases hE : env.delRes with
    | ok n => simp [hD', hIds, hE, okCount]
    | error e => simp [hD', hIds, hE, errOf]

theorem applyAdditions_eq (pk_column : String) (changes : ChangesDict) (env : Env)
    (res : Results) (tr : List Op) :
    applyAdditions pk_column changes env res tr =
      ({ res with
           added := if changes.added.isEmpty then res.added
                    else match env.insRes with
                      | .ok _ => changes.added.rows.length
                      | .error _ => res.added,
           errors := res.errors ++
             (if changes.added.isEmpty then []
              else match env.insRes with
                | .ok _ => []
                | .error e => ["Add: " ++ e]) },
       tr ++ (if changes.added.isEmpty then []
              else [Op.insertOp (changes.added.rows.map (fun p => dropKey p.2 pk_column))])) := by
  unfold applyAdditions
  by_cases hA : changes.added.isEmpty = true
  · simp [hA]
  · have hA' : changes.added.isEmpty = false := eq_false_of_ne_true hA
    cases hI : env.insRes with
    | ok u => simp [hA', hI, List.length_map]
    | error e => simp [hA', hI]

theorem apply_changes_eq (pk_column : String) (changes : ChangesDict) (env : Env) :
    apply_changes pk_column changes env =
      (resultsSpec changes env, traceSpec pk_column changes env) := by
  unfold apply_changes
  rw [applyDeletions_eq]
  by_cases hAb : deleteAborts changes env = true
  · have hD : changes.deleted.isEmpty = false := by
      by_contra h
      have h' : changes.deleted.isEmpty = true := by simpa using h
      simp [deleteAborts, h'] at hAb
    simp [hAb, hD, resultsSpec, traceSpec]
  · have hAb' : deleteAborts changes env = false := eq_false_of_ne_true hAb
    simp only [hAb']
    cases hE : changes.edited with
    | none =>
      by_cases hD : changes.deleted.isEmpty = true <;>
        simp [applyAdditions_eq, resultsSpec, traceSpec, expectedTrace, editedRows,
          hE, hAb', hD, updTotal, updErrors, Results.init]
    | some pr =>
      obtain ⟨orig_df, new_df⟩ := pr
      by_cases hD : changes.deleted.isEmpty = true <;>
        simp [updateLoop_spec, applyAdditions_eq, resultsSpec, traceSpec, expectedTrace,
          editedRows, hE, hAb', hD, Results.init]

theorem map_filter_none {α : Type} (f : α → Op) (p : Op → Bool)
    (h : ∀ a, p (f a) = false) :
    ∀ l : List α, (l.map f).filter p = [] := by
  intro l
  induction l with
  | nil => rfl
  | cons a l ih => simp [h a, ih]

theorem map_filterMap_none {α β : Type} (f : α → Op) (g : Op → Option β)
    (h : ∀ a, g (f a) = none) :
    ∀ l : List α, (l.map f).filterMap g = [] := by
  intro l
  induction l with
  | nil => rfl
  | cons a l ih => simp [List.filterMap_cons, h a, ih]

theorem map_filterMap_some {α β : Type} (f : α → Op) (g : Op → Option β) (h : α → β)
    (hgf : ∀ a, g (f a) = some (h a)) :
    ∀ l : List α, (l.map f).filterMap g = l.map h := by
  intro l
  induction l with
  | nil => rfl
  | cons a l ih => simp [List.filterMap_cons, hgf a, ih]

/-- C5: the results dictionary of apply_changes is exactly the spec
accounting: deleted is the delete's reported rows_deleted (0 when the
delete is absent or fails), edited the sum of rows_updated over the
issued updates, added the row count of a successful batched insert and 0
otherwise, and one message per failed operation. -/
theorem apply_changes_results_accounting :
    ∀ (pk_column : String) (changes : ChangesDict) (env : Env),
      (apply_changes pk_column changes env).1 = resultsSpec changes env := by
  intro pk_column changes env
  rw [apply_changes_eq]

/-- C3 (amended): which warehouse writes apply_changes issues is
independent of failures among the updates and the insert — when the
batched delete does not raise, the trace is a function of the diff alone;
but a raising delete aborts the run, so only the delete is issued. -/
theorem apply_changes_trace_independence :
    (∀ (pk_column : String) (changes : ChangesDict) (env : Env),
        (apply_changes pk_column changes env).2 = traceSpec pk_column changes env) ∧
    (∀ (pk_column : String) (changes : ChangesDict) (env env' : Env),
        deleteAborts changes env = false → deleteAborts changes env' = false →
        (apply_changes pk_column changes env).2 = (apply_changes pk_column changes env').2) := by
  have h1 : ∀ (pk_column : String) (changes : ChangesDict) (env : Env),
      (apply_changes pk_column changes env).2 = traceSpec pk_column changes env := by
    intro pk_column changes env
    rw [apply_changes_eq]
  refine ⟨h1, ?_⟩
  intro pk_column changes env env' hab hab'
  rw [h1, h1]
  unfold traceSpec
  rw [hab, hab']

/-- C3 counterexample: an exception raised by the batched delete does
prevent the insert for the additions from being issued. -/
theorem delete_abort_blocks_insert_cex :
    deleteAborts changesAddAndDelete envDelRaises = true ∧
    changesAddAndDelete.added.isEmpty = false ∧
    (apply_changes PK_COLUMN changesAddAndDelete envDelRaises).2.filter Op.isInsert = [] := by
  decide

/-- C3 witness: the trace with every update and the insert failing equals
the trace with everything succeeding. -/
theorem apply_changes_trace_independence_witness :
    (apply_changes PK_COLUMN changesEditAndDelete envUpdInsRaise).2 =
      (apply_changes PK_COLUMN changesEditAndDelete envAllOk).2 :=
  apply_changes_trace_independence.2 PK_COLUMN changesEditAndDelete envUpdInsRaise envAllOk
    (by decide) (by decide)

/-- C2 (amended): provided the batched delete does not raise, apply_changes
issues at most one delete batched over the deleted primary keys, exactly
one update per row of the edited post-image (carrying that row's
assignments and primary key), and at most one batched insert. -/
theorem apply_changes_op_shape :
    ∀ (pk_column : String) (changes : ChangesDict) (env : Env),
      deleteAborts changes env = false →
      (apply_changes pk_column changes env).2.filter Op.isDelete =
        (if changes.deleted.isEmpty then []
         else [Op.deleteOp (deletedIds pk_column changes)]) ∧
      (apply_changes pk_column changes env).2.filterMap Op.asUpdate? =
        (editedRows changes).map (fun p => (convAssigns (dropKey p.2 pk_column), p.1)) ∧
      ((apply_changes pk_column changes env).2.filter Op.isInsert).length ≤ 1 := by
  intro pk_column changes env hab
  have ht : (apply_changes pk_column changes env).2 = expectedTrace pk_column changes := by
    rw [apply_changes_eq]
    unfold traceSpec
    rw [hab]
    simp
  rw [ht]
  unfold expectedTrace
  refine ⟨?_, ?_, ?_⟩
  · rw [List.filter_append, List.filter_append]
    rw [map_filter_none (fun p : Val × Row => Op.updateOp (convAssigns (dropKey p.2 pk_column)) p.1)
      Op.isDelete (fun _ => rfl)]
    by_cases hD : changes.deleted.isEmpty = true <;> simp [hD, Op.isDelete]
  · rw [List.filterMap_append, List.filterMap_append]
    rw [map_filterMap_some (fun p : Val × Row => Op.updateOp (convAssigns (dropKey p.2 pk_column)) p.1)
      Op.asUpdate? (fun p : Val × Row => (convAssigns (dropKey p.2 pk_column), p.1)) (fun _ => rfl)]
    by_cases hD : changes.deleted.isEmpty = true <;>
      by_cases hA : changes.added.isEmpty = true <;>
        simp [hD, hA, Op.asUpdate?]
  · rw [List.filter_append, List.filter_append]
    rw [map_filter_none (fun p : Val × Row => Op.updateOp (convAssigns (dropKey p.2 pk_column)) p.1)
      Op.isInsert (fun _ => rfl)]
    by_cases hD : changes.deleted.isEmpty = true <;>
      by_cases hA : changes.added.isEmpty = true <;>
        simp [hD, hA, Op.isInsert]

/-- C2 counterexample: with one edited row and a raising delete, no update
operation is issued at all, so "exactly one update per edited row" fails. -/
theorem delete_abort_blocks_updates_cex :
    (apply_changes PK_COLUMN changesEditAndDelete envDelRaises).2.filterMap Op.asUpdate? = [] ∧
    (editedRows changesEditAndDelete).length = 1 ∧
    ¬ ((apply_changes PK_COLUMN changesEditAndDelete envDelRaises).2.filterMap
        Op.asUpdate?).length = (editedRows changesEditAndDelete).length := by
  decide

/-- C2 witness: the op-shape theorem at a concrete diff and a
non-raising environment. -/
theorem apply_changes_op_shape_witness :
    (apply_changes PK_COLUMN changesEditAndDelete envAllOk).2.filter Op.isDelete =
      (if changesEditAndDelete.deleted.isEmpty then []
       else [Op.deleteOp (deletedIds PK_COLUMN changesEditAndDelete)]) ∧
    (apply_changes PK_COLUMN changesEditAndDelete envAllOk).2.filterMap Op.asUpdate? =
      (editedRows changesEditAndDelete).map
        (fun p => (convAssigns (dropKey p.2 PK_COLUMN), p.1)) ∧
    ((apply_changes PK_COLUMN changesEditAndDelete envAllOk).2.filter Op.isInsert).length ≤ 1 :=
  apply_changes_op_shape PK_COLUMN changesEditAndDelete envAllOk (by decide)

theorem dropKey_excludes (r : Row) (c : String) :
    (dropKey r c).all (fun kv => kv.1 != c) = true := by
  rw [List.all_eq_true]
  intro kv hkv
  exact (List.mem_filter.mp hkv).2

theorem convAssigns_all_ne (r : Row) (c : String) :
    (convAssigns r).all (fun kv => kv.1 != c) = r.all (fun kv => kv.1 != c) := by
  induction r with
  | nil => rfl
  | cons kv rest ih =>
    simp only [convAssigns, List.map, List.all_cons] at ih ⊢
    rw [ih]

/-- C7: no warehouse write issued by apply_changes touches the primary-key
column — every update's assignment dictionary and every inserted row
excludes it — and the data editor disables editing of that column. -/
theorem pk_never_modified :
    (∀ (pk_column : String) (changes : ChangesDict) (env : Env) (op : Op),
        op ∈ (apply_changes pk_column changes env).2 →
        (∀ a p, op = Op.updateOp a p → a.all (fun kv => kv.1 != pk_column) = true) ∧
        (∀ rs, op = Op.insertOp rs →
          rs.all (fun r => r.all (fun kv => kv.1 != pk_column)) = true)) ∧
    PK_COLUMN ∈ editorDisabledColumns := by
  constructor
  · intro pk_column changes env op hop
    have ht : (apply_changes pk_column changes env).2 = traceSpec pk_column changes env := by
      rw [apply_changes_eq]
    rw [ht] at hop
    unfold traceSpec expectedTrace at hop
    constructor
    · intro a p hEq
      subst hEq
      by_cases hab : deleteAborts changes env = true
      · rw [if_pos hab] at hop
        simp at hop
      · rw [if_neg hab] at hop
        rcases List.mem_append.mp hop with h1 | h1
        · rcases List.mem_append.mp h1 with h2 | h2
          · by_cases hD : changes.deleted.isEmpty = true <;> simp [hD] at h2
          · obtain ⟨q, _, hq⟩ := List.mem_map.mp h2
            have ha : a = convAssigns (dropKey q.2 pk_column) := by
              injection hq.symm with h3 h4
            rw [ha, convAssigns_all_ne]
            exact dropKey_excludes q.2 pk_column
        · by_cases hA : changes.added.isEmpty = true <;> simp [hA] at h1
    · intro rs hEq
      subst hEq
      by_cases hab : deleteAborts changes env = true
      · rw [if_pos hab] at hop
        simp at hop
      · rw [if_neg hab] at hop
        rcases List.mem_append.mp hop with h1 | h1
        · rcases List.mem_append.mp h1 with h2 | h2
          · by_cases hD : changes.deleted.isEmpty = true <;> simp [hD] at h2
          · obtain ⟨q, _, hq⟩ := List.mem_map.mp h2
            cases hq
        · by_cases hA : changes.added.isEmpty = true
          · simp [hA] at h1
          · rw [if_neg hA] at h1
            have hrs : rs = changes.added.rows.map (fun p => dropKey p.2 pk_column) := by
              rcases List.mem_cons.mp h1 with h2 | h2
              · injection h2 with h3
              · cases h2
            rw [hrs, List.all_eq_true]
            intro r hr
            obtain ⟨q, _, hq⟩ := List.mem_map.mp hr
            rw [← hq]
            exact dropKey_excludes q.2 pk_column
  · simp [editorDisabledColumns]

/-- C7 witness: the theorem applied to the update operation issued for the
concrete one-row edit. -/
theorem pk_never_modified_witness :
    (([("PERSON", Val.str "z")] : Row).all (fun kv => kv.1 != PK_COLUMN) = true) ∧
      PK_COLUMN ∈ editorDisabledColumns :=
  ⟨(pk_never_modified.1 PK_COLUMN changesEditAndDelete envAllOk
      (Op.updateOp [("PERSON", Val.str "z")] (Val.int 1)) (by decide)).1
      [("PERSON", Val.str "z")] (Val.int 1) rfl,
   pk_never_modified.2⟩

/-- C4 witness: the iff at a concrete one-cell edit. -/
theorem style_changed_cells_iff_witness :
    (styleGet ((style_changed_cells dfWedited dfW).getD 0 (Val.na, [])).2 "PERSON" =
        yellowHighlight ↔
      naAwareEq (cellOf dfWedited (labelAt dfWedited 0) "PERSON")
          (cellOf dfW (labelAt dfWedited 0) "PERSON") = false) ∧
    (styleGet ((style_changed_cells dfWedited dfW).getD 0 (Val.na, [])).2 "PERSON" =
        yellowHighlight ∨
      styleGet ((style_changed_cells dfWedited dfW).getD 0 (Val.na, [])).2 "PERSON" = "") :=
  style_changed_cells_iff dfWedited dfW (by decide) rfl 0 (by decide) "PERSON" (by decide)

/-! Ordering lemmas for the fetch path. -/

theorem vle_total : ∀ a b : Val, vle a b = true ∨ vle b a = true := by
  intro a b
  cases a <;> cases b <;> simp [vle] <;>
    first
      | exact Int.le_total _ _
      | exact le_total _ _

theorem vle_trans : ∀ a b c : Val, vle a b = true → vle b c = true → vle a c = true := by
  intro a b c
  cases a <;> cases b <;> cases c <;> simp [vle] <;>
    (intro h1 h2; exact le_trans h1 h2)

theorem orderLimit_sorted (pk_column : String) (rows : List Row) :
    (orderLimit pk_column rows).Pairwise (rowLe pk_column) := by
  haveI : IsTotal Row (rowLe pk_column) := ⟨fun a b => vle_total _ _⟩
  haveI : IsTrans Row (rowLe pk_column) := ⟨fun a b c => vle_trans _ _ _⟩
  exact List.Pairwise.sublist (List.take_sublist _ _)
    (List.sorted_insertionSort (rowLe pk_column) rows)

theorem orderLimit_le_100 (pk_column : String) (rows : List Row) :
    (orderLimit pk_column rows).length ≤ 100 :=
  List.length_take_le _ _

theorem coerceRowStrict_other_cols {r r' : Row} (h : coerceRowStrict r = .ok r')
    (c : String) (hc : (c == "TIMESTAMP") = false) : rowGet r' c = rowGet r c := by
  induction r generalizing r' with
  | nil =>
    simp only [coerceRowStrict] at h
    cases h
    rfl
  | cons kv rest ih =>
    simp only [coerceRowStrict] at h
    cases hv : (if kv.1 == "TIMESTAMP" then toDatetimeStrict kv.2 else .ok kv.2) with
    | error e => rw [hv] at h; cases h
    | ok v =>
      rw [hv] at h
      cases hrest : coerceRowStrict rest with
      | error e => rw [hrest] at h; cases h
      | ok rest' =>
        rw [hrest] at h
        cases h
        by_cases hk : (kv.1 == c) = true
        · have hkv : v = kv.2 := by
            have hkts : (kv.1 == "TIMESTAMP") = false := by
              have : kv.1 = c := by simpa using hk
              rw [this]; exact hc
            rw [if_neg (by simp [hkts])] at hv
            injection hv with h2
            exact h2.symm
          simp [rowGet, List.find?, hk, hkv]
        · have hk' : (kv.1 == c) = false := eq_false_of_ne_true hk
          simp only [rowGet, List.find?, hk'] at ih ⊢
          exact ih hrest

theorem coerceRowsStrict_labels {rows rows' : List Row}
    (h : coerceRowsStrict rows = .ok rows') (c : String)
    (hc : (c == "TIMESTAMP") = false) :
    rows'.map (fun r => rowGet r c) = rows.map (fun r => rowGet r c) := by
  induction rows generalizing rows' with
  | nil =>
    simp only [coerceRowsStrict] at h
    cases h
    rfl
  | cons r rest ih =>
    simp only [coerceRowsStrict] at h
    cases hr : coerceRowStrict r with
    | error e => rw [hr] at h; cases h
    | ok r0 =>
      rw [hr] at h
      cases hrest : coerceRowsStrict rest with
      | error e => rw [hrest] at h; cases h
      | ok rest0 =>
        rw [hrest] at h
        cases h
        simp only [List.map]
        rw [coerceRowStrict_other_cols hr c hc, ih hrest]

theorem coerceRowsStrict_length {rows rows' : List Row}
    (h : coerceRowsStrict rows = .ok rows') : rows'.length = rows.length := by
  have := coerceRowsStrict_labels h "" rfl
  have h2 := congrArg List.length this
  simpa using h2

/-- C9: whenever get_data returns a table, it has at most 100 rows and its
index labels are in ascending primary-key order. -/
theorem get_data_limit_sorted :
    ∀ (remote : RemoteTable) (fetchErr : Option String) (msgs : List String) (df : DF),
      get_data remote PK_COLUMN fetchErr = (msgs, GOut.table df) →
      df.rows.length ≤ 100 ∧ df.rows.Pairwise (fun p q => vle p.1 q.1 = true) := by
  intro remote fetchErr msgs df h
  cases fetchErr with
  | some e =>
    exfalso
    simp [get_data, getDataTry, setIndex, PK_COLUMN] at h
  | none =>
    have hschema : PK_COLUMN ∈ schemaCols := by decide
    by_cases he : orderLimit PK_COLUMN remote.rows = []
    · simp [get_data, getDataTry, coerceRowsStrict, setIndex, he, hschema] at h
      obtain ⟨h1, h2⟩ := h
      subst h2
      exact ⟨by simp, by simp⟩
    · by_cases hc : PK_COLUMN ∈ remote.cols
      · have hsorted := orderLimit_sorted PK_COLUMN remote.rows
        have hlen := orderLimit_le_100 PK_COLUMN remote.rows
        by_cases hts : "TIMESTAMP" ∈ remote.cols
        · cases hco : coerceRowsStrict (orderLimit PK_COLUMN remote.rows) with
          | error e2 =>
            exfalso
            simp [get_data, getDataTry, setIndex, he, hc, hts, hco] at h
          | ok coerced =>
            simp [get_data, getDataTry, setIndex, he, hc, hts, hco] at h
            obtain ⟨h1, h2⟩ := h
            subst h2
            constructor
            · simp [coerceRowsStrict_length hco, hlen]
            · have hlab : List.Pairwise (fun a b : Val => vle a b = true)
                  ((orderLimit PK_COLUMN remote.rows).map (fun r => rowGet r PK_COLUMN)) :=
                List.pairwise_map.mpr hsorted
              rw [← coerceRowsStrict_labels hco PK_COLUMN (by rfl)] at hlab
              have hco2 := List.pairwise_map.mp hlab
              exact List.pairwise_map.mpr hco2
        · simp [get_data, getDataTry, setIndex, coerceRowsStrict, he, hc, hts] at h
          obtain ⟨h1, h2⟩ := h
          subst h2
          constructor
          · simp [hlen]
          · exact List.pairwise_map.mpr hsorted
      · exfalso
        simp [get_data, he, hc] at h

/-- C9 witness: the bound and the ordering at a concrete out-of-order
remote table. -/
theorem get_data_limit_sorted_witness :
    ({ cols := ["BATCH_ID", "PERSON"],
       rows := [(.int 1, [("BATCH_ID", .int 1), ("PERSON", .str "a")]),
                (.int 2, [("BATCH_ID", .int 2), ("PERSON", .str "b")]),
                (.int 3, [("BATCH_ID", .int 3), ("PERSON", .str "c")])] } : DF).rows.length ≤
        100 ∧
      ({ cols := ["BATCH_ID", "PERSON"],
         rows := [(.int 1, [("BATCH_ID", .int 1), ("PERSON", .str "a")]),
                  (.int 2, [("BATCH_ID", .int 2), ("PERSON", .str "b")]),
                  (.int 3, [("BATCH_ID", .int 3), ("PERSON", .str "c")])] } : DF).rows.Pairwise
        (fun p q => vle p.1 q.1 = true) :=
  get_data_limit_sorted remoteW none
    ["Fetching data from DEMO.DT_TUTORIAL.SYNTHETIC_BATCH_DATA...", "Fetched 3 rows."]
    { cols := ["BATCH_ID", "PERSON"],
      rows := [(.int 1, [("BATCH_ID", .int 1), ("PERSON", .str "a")]),
               (.int 2, [("BATCH_ID", .int 2), ("PERSON", .str "b")]),
               (.int 3, [("BATCH_ID", .int 3), ("PERSON", .str "c")])] }
    (by decide)

/-! Row-level lemmas for the edit loop. -/

theorem beq_symm_val (a b : Val) : (a == b) = (b == a) := by
  by_cases h : a = b
  · subst h; rfl
  · rw [beq_eq_false_iff_ne.mpr h, beq_eq_false_iff_ne.mpr (Ne.symm h)]

theorem rowGet_append_other (c0 : String) (v0 : Val) (c : String)
    (h : (c0 == c) = false) :
    ∀ r : Row, rowGet (r ++ [(c0, v0)]) c = rowGet r c := by
  intro r
  induction r with
  | nil => simp [rowGet, List.find?, h]
  | cons kv rest ih =>
    by_cases hk : (kv.1 == c) = true
    · simp [rowGet, List.find?, hk]
    · have hk' : (kv.1 == c) = false := eq_false_of_ne_true hk
      rw [List.cons_append]
      simp only [rowGet, List.find?, hk']
      simpa [rowGet] using ih

theorem rowGet_append_self (c : String) (v : Val) :
    ∀ r : Row, r.any (fun kv => kv.1 == c) = false →
      rowGet (r ++ [(c, v)]) c = v := by
  intro r
  induction r with
  | nil => simp [rowGet, List.find?]
  | cons kv rest ih =>
    intro hany
    simp only [List.any_cons, Bool.or_eq_false_iff] at hany
    rw [List.cons_append]
    simp only [rowGet, List.find?, hany.1]
    simpa [rowGet] using ih hany.2

theorem rowGet_set_map_self (c : String) (v : Val) :
    ∀ r : Row, r.any (fun kv => kv.1 == c) = true →
      rowGet (r.map (fun kv => if kv.1 == c then (kv.1, v) else kv)) c = v := by
  intro r
  induction r with
  | nil => intro h; cases h
  | cons kv rest ih =>
    intro hany
    by_cases hk : (kv.1 == c) = true
    · simp [rowGet, List.find?, hk]
    · have hk' : (kv.1 == c) = false := eq_false_of_ne_true hk
      have hrest : rest.any (fun kv => kv.1 == c) = true := by
        simp only [List.any_cons, hk', Bool.false_or] at hany
        exact hany
      rw [List.map_cons]
      have h2 : (if kv.1 == c then (kv.1, v) else kv) = kv := by simp [hk']
      rw [h2]
      simp only [rowGet, List.find?, hk']
      simpa [rowGet] using ih hrest

theorem rowGet_rowSet_self (r : Row) (c : String) (v : Val) :
    rowGet (rowSet r c v) c = v := by
  unfold rowSet
  by_cases hany : r.any (fun kv => kv.1 == c) = true
  · rw [if_pos hany]
    exact rowGet_set_map_self c v r hany
  · rw [if_neg hany]
    exact rowGet_append_self c v r (eq_false_of_ne_true hany)

theorem rowGet_rowSet_other (r : Row) (c0 : String) (v0 : Val) (c : String)
    (h : (c0 == c) = false) :
    rowGet (rowSet r c0 v0) c = rowGet r c := by
  unfold rowSet
  by_cases hany : r.any (fun kv => kv.1 == c0) = true
  · rw [if_pos hany]
    clear hany
    induction r with
    | nil => rfl
    | cons kv rest ih =>
      rw [List.map_cons]
      by_cases hk0 : (kv.1 == c0) = true
      · have hkc : (kv.1 == c) = false := by
          have h1 : kv.1 = c0 := by simpa using hk0
          rw [h1]; exact h
        have h2 : (if kv.1 == c0 then (kv.1, v0) else kv) = (kv.1, v0) := by simp [hk0]
        rw [h2]
        simp only [rowGet, List.find?, hkc]
        simpa [rowGet] using ih
      · have hk0' : (kv.1 == c0) = false := eq_false_of_ne_true hk0
        have h2 : (if kv.1 == c0 then (kv.1, v0) else kv) = kv := by simp [hk0']
        rw [h2]
        by_cases hkc : (kv.1 == c) = true
        · simp [rowGet, List.find?, hkc]
        · have hkc2 : (kv.1 == c) = false := eq_false_of_ne_true hkc
          simp only [rowGet, List.find?, hkc2]
          simpa [rowGet] using ih
  · rw [if_neg hany]
    exact rowGet_append_other c0 v0 c h r

theorem rowGet_rowSetAll (c : String) :
    ∀ (m : List (String × Val)) (r : Row), (m.map Prod.fst).Nodup →
      rowGet (rowSetAll r m) c =
        (match m.find? (fun cv => cv.1 == c) with
         | some cv => cv.2
         | none => rowGet r c) := by
  intro m
  induction m with
  | nil => intro r _; rfl
  | cons cv m' ih =>
    intro r hn
    simp only [List.map, List.nodup_cons] at hn
    have hstep : rowSetAll r (cv :: m') = rowSetAll (rowSet r cv.1 cv.2) m' := rfl
    rw [hstep, ih _ hn.2]
    by_cases hk : (cv.1 == c) = true
    · have hceq : cv.1 = c := by simpa using hk
      have hnone : m'.find? (fun cv2 => cv2.1 == c) = none := by
        refine List.find?_eq_none.mpr ?_
        intro x hx hbx
        have hxc : x.1 = c := by simpa using hbx
        apply hn.1
        rw [← hceq] at hxc
        rw [← hxc]
        exact List.mem_map_of_mem Prod.fst hx
      simp only [List.find?, hk, hnone]
      rw [← hceq]
      exact rowGet_rowSet_self r cv.1 cv.2
    · have hk' : (cv.1 == c) = false := eq_false_of_ne_true hk
      simp only [List.find?, hk']
      cases hf : m'.find? (fun cv2 => cv2.1 == c) with
      | some cv2 => rfl
      | none => exact rowGet_rowSet_other r cv.1 cv.2 c hk'

/-! Frame-level lemmas for the edit loop. -/

theorem applyRowEdits_map (lbl : Val) :
    ∀ (m : List (String × Val)) (cols : List String) (rows : List (Val × Row)),
      (∀ cv ∈ m, cv.1 ∈ cols) →
      applyRowEdits ⟨cols, rows⟩ lbl m =
        ⟨cols, rows.map (fun p => if p.1 == lbl then (p.1, rowSetAll p.2 m) else p)⟩ := by
  intro m
  induction m with
  | nil =>
    intro cols rows _
    simp only [applyRowEdits, rowSetAll, List.foldl_nil]
    congr 1
    have : ∀ p : Val × Row, (if p.1 == lbl then (p.1, p.2) else p) = p := by
      intro p
      by_cases hp : (p.1 == lbl) = true <;> simp [hp]
    simp [this]
  | cons cv m' ih =>
    intro cols rows hcols
    have hc0 : cv.1 ∈ cols := hcols cv (by simp)
    have hcontains : cols.contains cv.1 = true := List.elem_eq_true_of_mem hc0
    simp only [applyRowEdits, setCellByLabel, hcontains, if_true]
    rw [ih cols _ (fun cv2 h2 => hcols cv2 (by simp [h2]))]
    congr 1
    rw [List.map_map]
    apply List.map_congr_left
    intro p _
    by_cases hp : (p.1 == lbl) = true
    · simp only [Function.comp, hp, if_true]
      rfl
    · have hp' : (p.1 == lbl) = false := eq_false_of_ne_true hp
      simp [Function.comp, hp']

theorem applyAllEdits_map :
    ∀ (entries : List (Val × List (String × Val))) (cols : List String)
      (rows : List (Val × Row)),
      (∀ e ∈ entries, ∀ cv ∈ e.2, cv.1 ∈ cols) →
      applyAllEdits ⟨cols, rows⟩ entries =
        ⟨cols, rows.map (fun p => (p.1, rowSetAll p.2 (entriesFor entries p.1)))⟩ := by
  intro entries
  induction entries with
  | nil =>
    intro cols rows _
    simp only [applyAllEdits, entriesFor, List.filter_nil, List.map_nil, List.flatten_nil]
    congr 1
    have : ∀ p : Val × Row, ((p.1, rowSetAll p.2 []) : Val × Row) = p := by
      intro p; rfl
    simp [this, rowSetAll]
  | cons e rest ih =>
    intro cols rows hcols
    obtain ⟨l0, m0⟩ := e
    simp only [applyAllEdits]
    rw [applyRowEdits_map l0 m0 cols rows (fun cv h => hcols (l0, m0) (by simp) cv h)]
    rw [ih cols _ (fun e2 h2 cv hcv => hcols e2 (by simp [h2]) cv hcv)]
    congr 1
    rw [List.map_map]
    apply List.map_congr_left
    intro p _
    simp only [Function.comp]
    by_cases hp : (p.1 == l0) = true
    · have hl0 : (l0 == p.1) = true := by rw [beq_symm_val]; exact hp
      simp only [hp, if_true]
      have hfor : entriesFor ((l0, m0) :: rest) p.1 = m0 ++ entriesFor rest p.1 := by
        simp [entriesFor, List.filter_cons, hl0]
      rw [hfor]
      have happ : rowSetAll p.2 (m0 ++ entriesFor rest p.1) =
          rowSetAll (rowSetAll p.2 m0) (entriesFor rest p.1) := by
        simp [rowSetAll, List.foldl_append]
      rw [happ]
    · have hp' : (p.1 == l0) = false := eq_false_of_ne_true hp
      have hl0 : (l0 == p.1) = false := by rw [beq_symm_val]; exact hp'
      have hfor : entriesFor ((l0, m0) :: rest) p.1 = entriesFor rest p.1 := by
        simp [entriesFor, List.filter_cons, hl0]
      have h2 : (if p.1 == l0 then (p.1, rowSetAll p.2 m0) else p) = p := by
        simp [hp']
      rw [h2, hfor]

theorem entriesFor_self :
    ∀ (entries : List (Val × List (String × Val))),
      (entries.map Prod.fst).Nodup →
      ∀ e ∈ entries, entriesFor entries e.1 = e.2 := by
  intro entries
  induction entries with
  | nil => intro _ e he; cases he
  | cons e0 rest ih =>
    intro hn e he
    simp only [List.map, List.nodup_cons] at hn
    rcases List.mem_cons.mp he with h1 | h1
    · subst h1
      have hself : (e.1 == e.1) = true := by simp
      have hnone : rest.filter (fun e2 => e2.1 == e.1) = [] := by
        rw [List.filter_eq_nil_iff]
        intro x hx hbx
        have : x.1 = e.1 := by simpa using hbx
        exact hn.1 (this ▸ List.mem_map_of_mem Prod.fst hx)
      simp [entriesFor, List.filter_cons, hself, hnone]
    · have hne : (e0.1 == e.1) = false := by
        refine beq_eq_false_iff_ne.mpr ?_
        intro hcontra
        apply hn.1
        rw [hcontra]
        exact List.mem_map_of_mem Prod.fst h1
      have := ih hn.2 e h1
      simp only [entriesFor, List.filter_cons, hne] at this ⊢
      exact this

/-! Positional-access utilities. -/

theorem getD_map_of_lt {α β : Type} (f : α → β) (l : List α) (j : Nat)
    (h : j < l.length) (d : β) (d2 : α) :
    (l.map f).getD j d = f (l.getD j d2) := by
  rw [List.getD_eq_getElem?_getD, List.getElem?_map, List.getElem?_eq_getElem h,
    List.getD_eq_getElem?_getD, List.getElem?_eq_getElem h]
  rfl

theorem getD_zip_of_lt {α β : Type} (l1 : List α) (l2 : List β) (j : Nat)
    (h1 : j < l1.length) (h2 : j < l2.length) (d1 : α) (d2 : β) :
    (l1.zip l2).getD j (d1, d2) = (l1.getD j d1, l2.getD j d2) := by
  have hz : j < (l1.zip l2).length := by
    rw [List.length_zip]
    omega
  rw [List.getD_eq_getElem?_getD, List.getElem?_eq_getElem hz,
    List.getD_eq_getElem?_getD, List.getElem?_eq_getElem h1,
    List.getD_eq_getElem?_getD, List.getElem?_eq_getElem h2]
  simp [List.getElem_zip]

theorem getD_mem {α : Type} (l : List α) (j : Nat) (h : j < l.length) (d : α) :
    l.getD j d ∈ l := by
  rw [List.getD_eq_getElem?_getD, List.getElem?_eq_getElem h]
  exact List.getElem_mem h

theorem labelAt_inj (df : DF) (hL : df.labels.Nodup) {x y : Nat}
    (hx : x < df.rows.length) (hy : y < df.rows.length)
    (hxy : labelAt df x = labelAt df y) : x = y := by
  have hx2 : x < df.labels.length := by simpa [DF.labels] using hx
  have hy2 : y < df.labels.length := by simpa [DF.labels] using hy
  have e1 : labelAt df x = df.labels[x] := by
    simp [labelAt, DF.labels, List.getD_eq_getElem?_getD, List.getElem?_eq_getElem hx]
  have e2 : labelAt df y = df.labels[y] := by
    simp [labelAt, DF.labels, List.getD_eq_getElem?_getD, List.getElem?_eq_getElem hy]
  rw [e1, e2] at hxy
  exact (List.Nodup.getElem_inj_iff hL).mp hxy

theorem pks_nodup (df : DF) (hL : df.labels.Nodup) (is : List Nat)
    (hR : ∀ i ∈ is, i < df.rows.length) (hN : is.Nodup) :
    (is.map (labelAt df)).Nodup := by
  refine List.Nodup.map_on ?_ hN
  intro x hx y hy hxy
  exact labelAt_inj df hL (hR x hx) (hR y hy) hxy

/-- Reading a cell of the TIMESTAMP-coerced row. -/
theorem rowGet_coerce_ts (c : String) :
    ∀ r : Row,
      rowGet (r.map (fun kv =>
          if kv.1 == "TIMESTAMP" then (kv.1, toDatetimeCoerce kv.2) else kv)) c =
        (if (c == "TIMESTAMP") = true then toDatetimeCoerce (rowGet r c)
         else rowGet r c) := by
  intro r
  induction r with
  | nil =>
    by_cases hc : (c == "TIMESTAMP") = true <;>
      simp [rowGet, List.find?, hc, toDatetimeCoerce]
  | cons kv rest ih =>
    rw [List.map_cons]
    by_cases hk : (kv.1 == c) = true
    · have hkc : kv.1 = c := by simpa using hk
      by_cases hts : (c == "TIMESTAMP") = true
      · have hts2 : (kv.1 == "TIMESTAMP") = true := by rw [hkc]; exact hts
        simp [rowGet, List.find?, hk, hts, hts2]
      · have hts' : (c == "TIMESTAMP") = false := eq_false_of_ne_true hts
        have hts2 : (kv.1 == "TIMESTAMP") = false := by rw [hkc]; exact hts'
        simp [rowGet, List.find?, hk, hts', hts2]
    · have hk' : (kv.1 == c) = false := eq_false_of_ne_true hk
      have hhead : ((if kv.1 == "TIMESTAMP" then (kv.1, toDatetimeCoerce kv.2)
          else kv) : String × Val).1 = kv.1 := by
        by_cases h3 : (kv.1 == "TIMESTAMP") = true <;> simp [h3]
      simp only [rowGet, List.find?, hhead, hk'] at ih ⊢
      exact ih

/-- Characterization of the pre- and post-image frames built by the edits
branch of get_changes_from_editor. -/
theorem edited_part_spec (est : EditorState) (df : DF)
    (hL : df.labels.Nodup)
    (hER : ∀ pr ∈ est.edited_rows, pr.1 < df.rows.length)
    (hEP : (est.edited_rows.map Prod.fst).Nodup)
    (hEC : ∀ pr ∈ est.edited_rows, ∀ cv ∈ pr.2, cv.1 ∈ df.cols)
    (hEK : ∀ pr ∈ est.edited_rows, (pr.2.map Prod.fst).Nodup) :
    (locList df ((est.edited_rows.map Prod.fst).map (labelAt df))).rows =
        est.edited_rows.map (fun pr => origRowAt df pr.1) ∧
    ∀ post,
      post = coerceTimestampCol
        (applyAllEdits (locList df ((est.edited_rows.map Prod.fst).map (labelAt df)))
          ((((est.edited_rows.map Prod.fst).map (labelAt df))).zip
            (est.edited_rows.map Prod.snd))) →
      post.cols = df.cols ∧
      post.rows.length = est.edited_rows.length ∧
      ∀ j, j < est.edited_rows.length → ∀ c' : String,
        (post.rows.getD j (Val.na, [])).1 =
          labelAt df (est.edited_rows.getD j (0, [])).1 ∧
        rowGet (post.rows.getD j (Val.na, [])).2 c' =
          postCellSpec df (est.edited_rows.getD j (0, [])) c' := by
  have hpkR : ∀ i ∈ est.edited_rows.map Prod.fst, i < df.rows.length := by
    intro i hi
    obtain ⟨pr, hpr, rfl⟩ := List.mem_map.mp hi
    exact hER pr hpr
  have hpreRows : (locList df ((est.edited_rows.map Prod.fst).map (labelAt df))).rows =
      est.edited_rows.map (fun pr => origRowAt df pr.1) := by
    show (((est.edited_rows.map Prod.fst).map (labelAt df))).map (locRow df) = _
    rw [List.map_map, List.map_map]
    apply List.map_congr_left
    intro pr hpr
    exact locRow_labelAt df hL pr.1 (hER pr hpr)
  refine ⟨hpreRows, ?_⟩
  intro post hpost
  have hcolsE : ∀ e ∈ (((est.edited_rows.map Prod.fst).map (labelAt df))).zip
      (est.edited_rows.map Prod.snd), ∀ cv ∈ e.2, cv.1 ∈ df.cols := by
    intro e he cv hcv
    have h2 := (List.of_mem_zip he).2
    obtain ⟨pr, hpr, hpr2⟩ := List.mem_map.mp h2
    exact hEC pr hpr cv (hpr2 ▸ hcv)
  have happly := applyAllEdits_map
    ((((est.edited_rows.map Prod.fst).map (labelAt df))).zip (est.edited_rows.map Prod.snd))
    df.cols
    ((((est.edited_rows.map Prod.fst).map (labelAt df))).map (locRow df)) hcolsE
  have hloc : locList df ((est.edited_rows.map Prod.fst).map (labelAt df)) =
      (⟨df.cols, (((est.edited_rows.map Prod.fst).map (labelAt df))).map (locRow df)⟩ : DF) :=
    rfl
  rw [hloc, happly] at hpost
  have hpreRows' : (((est.edited_rows.map Prod.fst).map (labelAt df))).map (locRow df) =
      est.edited_rows.map (fun pr => origRowAt df pr.1) := hpreRows
  rw [hpreRows'] at hpost
  -- the inner (uncoerced) rows
  have hinner : post = coerceTimestampCol
      (⟨df.cols, (est.edited_rows.map (fun pr => origRowAt df pr.1)).map
        (fun p => (p.1, rowSetAll p.2 (entriesFor
          ((((est.edited_rows.map Prod.fst).map (labelAt df))).zip
            (est.edited_rows.map Prod.snd)) p.1)))⟩ : DF) := hpost
  have hentfst : ((((est.edited_rows.map Prod.fst).map (labelAt df))).zip
      (est.edited_rows.map Prod.snd)).map Prod.fst =
      ((est.edited_rows.map Prod.fst).map (labelAt df)) := by
    apply List.map_fst_zip
    simp
  have hpksN : (((est.edited_rows.map Prod.fst).map (labelAt df))).Nodup :=
    pks_nodup df hL _ hpkR hEP
  have hentN : (((((est.edited_rows.map Prod.fst).map (labelAt df))).zip
      (est.edited_rows.map Prod.snd)).map Prod.fst).Nodup := by
    rw [hentfst]; exact hpksN
  -- per-row characterization of the uncoerced frame
  have hcell : ∀ j, j < est.edited_rows.length → ∀ c' : String,
      ((est.edited_rows.map (fun pr => origRowAt df pr.1)).map
        (fun p => (p.1, rowSetAll p.2 (entriesFor
          ((((est.edited_rows.map Prod.fst).map (labelAt df))).zip
            (est.edited_rows.map Prod.snd)) p.1)))).getD j (Val.na, []) =
        (labelAt df (est.edited_rows.getD j (0, [])).1,
          rowSetAll (origRowAt df (est.edited_rows.getD j (0, [])).1).2
            (est.edited_rows.getD j (0, [])).2) := by
    intro j hj _
    have hj1 : j < (est.edited_rows.map (fun pr => origRowAt df pr.1)).length := by
      simpa using hj
    rw [getD_map_of_lt _ _ j hj1 _ (Val.na, [])]
    rw [getD_map_of_lt _ _ j (by simpa using hj) _ (0, [])]
    have hlbl : (origRowAt df (est.edited_rows.getD j (0, [])).1).1 =
        labelAt df (est.edited_rows.getD j (0, [])).1 := rfl
    rw [hlbl]
    congr 1
    -- the collected assignments for this label are exactly this row's dict
    have hej : ((((est.edited_rows.map Prod.fst).map (labelAt df))).zip
        (est.edited_rows.map Prod.snd)).getD j (Val.na, []) =
        (labelAt df (est.edited_rows.getD j (0, [])).1,
          (est.edited_rows.getD j (0, [])).2) := by
      rw [getD_zip_of_lt _ _ j (by simpa using hj) (by simpa using hj)]
      congr 1
      · rw [getD_map_of_lt _ _ j (by simpa using hj) _ 0,
          getD_map_of_lt _ _ j hj _ (0, [])]
      · rw [getD_map_of_lt _ _ j hj _ (0, [])]
    have hmem : ((((est.edited_rows.map Prod.fst).map (labelAt df))).zip
        (est.edited_rows.map Prod.snd)).getD j (Val.na, []) ∈
        ((((est.edited_rows.map Prod.fst).map (labelAt df))).zip
          (est.edited_rows.map Prod.snd)) := by
      apply getD_mem
      rw [List.length_zip]
      simp [hj]
    have := entriesFor_self _ hentN _ hmem
    rw [hej] at this
    exact congrArg _ this
  subst hinner
  unfold coerceTimestampCol
  by_cases hts : df.cols.contains "TIMESTAMP" = true
  · rw [if_pos hts]
    refine ⟨rfl, by simpa using rfl, ?_⟩
    · intro j hj c'
      have hj2 : j < ((est.edited_rows.map (fun pr => origRowAt df pr.1)).map
          (fun p => (p.1, rowSetAll p.2 (entriesFor
            ((((est.edited_rows.map Prod.fst).map (labelAt df))).zip
              (est.edited_rows.map Prod.snd)) p.1)))).length := by
        simpa using hj
      rw [getD_map_of_lt _ _ j hj2 _ (Val.na, [])]
      rw [hcell j hj c']
      constructor
      · rfl
      · show rowGet ((rowSetAll (origRowAt df (est.edited_rows.getD j (0, [])).1).2
            (est.edited_rows.getD j (0, [])).2).map (fun kv =>
              if kv.1 == "TIMESTAMP" then (kv.1, toDatetimeCoerce kv.2) else kv)) c' = _
        rw [rowGet_coerce_ts]
        rw [rowGet_rowSetAll c' _ _
          (hEK _ (getD_mem est.edited_rows j hj (0, [])))]
        unfold postCellSpec editBase
        rw [hts]
        by_cases hcts : (c' == "TIMESTAMP") = true <;> simp [hcts]
  · rw [if_neg hts]
    refine ⟨rfl, by simpa using rfl, ?_⟩
    intro j hj c'
    rw [hcell j hj c']
    refine ⟨rfl, ?_⟩
    show rowGet (rowSetAll (origRowAt df (est.edited_rows.getD j (0, [])).1).2
        (est.edited_rows.getD j (0, [])).2) c' = _
    rw [rowGet_rowSetAll c' _ _
      (hEK _ (getD_mem est.edited_rows j hj (0, [])))]
    unfold postCellSpec editBase
    have hts' : df.cols.contains "TIMESTAMP" = false := eq_false_of_ne_true hts
    rw [hts']
    simp

/-- C1 (amended): for a well-formed change description over a table with
distinct primary keys, get_changes_from_editor materializes the three
row-sets: deletions are the original rows at the deleted positions,
additions are built from the added entries (TIMESTAMP column coerced to
datetime), and each edit carries the original rows as pre-image and a
post-image equal to the pre-image with exactly the listed cells replaced
by their new values — except that the TIMESTAMP column of the post-image
is re-coerced to datetime, so an unparseable new value becomes missing. -/
theorem get_changes_from_editor_materializes (est : EditorState) (df : DF)
    (pk_column : String)
    (hL : df.labels.Nodup)
    (hER : ∀ pr ∈ est.edited_rows, pr.1 < df.rows.length)
    (hEP : (est.edited_rows.map Prod.fst).Nodup)
    (hEC : ∀ pr ∈ est.edited_rows, ∀ cv ∈ pr.2, cv.1 ∈ df.cols)
    (hEK : ∀ pr ∈ est.edited_rows, (pr.2.map Prod.fst).Nodup)
    (hDR : ∀ i ∈ est.deleted_rows, i < df.rows.length) :
    ∃ c, get_changes_from_editor (some est) df pk_column = Except.ok (some c) ∧
      c.deleted.rows = est.deleted_rows.map (origRowAt df) ∧
      c.added = mkAddedDf est.added_rows ∧
      (c.edited = none ↔ est.edited_rows = []) ∧
      (∀ pre post, c.edited = some (pre, post) →
        pre.rows = est.edited_rows.map (fun pr => origRowAt df pr.1) ∧
        post.cols = df.cols ∧
        post.rows.length = est.edited_rows.length ∧
        ∀ j, j < est.edited_rows.length → ∀ c' : String,
          (post.rows.getD j (Val.na, [])).1 =
            labelAt df (est.edited_rows.getD j (0, [])).1 ∧
          rowGet (post.rows.getD j (Val.na, [])).2 c' =
            postCellSpec df (est.edited_rows.getD j (0, [])) c') := by
  have hpkR : ∀ i ∈ est.edited_rows.map Prod.fst, i < df.rows.length := by
    intro i hi
    obtain ⟨pr, hpr, rfl⟩ := List.mem_map.mp hi
    exact hER pr hpr
  have hEdIdx := indexListAt_ok df _ hpkR
  have hDelIdx := indexListAt_ok df _ hDR
  obtain ⟨hpre, hpost⟩ := edited_part_spec est df hL hER hEP hEC hEK
  have hdelmap : (est.deleted_rows.map (labelAt df)).map (locRow df) =
      est.deleted_rows.map (origRowAt df) := by
    rw [List.map_map]
    apply List.map_congr_left
    intro i hi
    exact locRow_labelAt df hL i (hDR i hi)
  by_cases hEmp : est.edited_rows = []
  · have hIsE : est.edited_rows.isEmpty = true := by simp [hEmp]
    by_cases hDel : est.deleted_rows = []
    · refine ⟨{ added := mkAddedDf est.added_rows,
                edited := none,
                deleted := { cols := [], rows := [] } }, ?_, ?_, rfl, ?_, ?_⟩
      · simp [get_changes_from_editor, hIsE, hDel]
      · simp [hDel]
      · simp [hEmp]
      · intro pre post hcontra
        cases hcontra
    · have hIsD : est.deleted_rows.isEmpty = false := by
        cases hD : est.deleted_rows with
        | nil => exact absurd hD hDel
        | cons a l => rfl
      refine ⟨{ added := mkAddedDf est.added_rows,
                edited := none,
                deleted := locList df (est.deleted_rows.map (labelAt df)) },
        ?_, ?_, rfl, ?_, ?_⟩
      · simp [get_changes_from_editor, hIsE, hIsD, hDelIdx]
      · exact hdelmap
      · simp [hEmp]
      · intro pre post hcontra
        cases hcontra
  · have hIsE : est.edited_rows.isEmpty = false := by
      cases hE : est.edited_rows with
      | nil => exact absurd hE hEmp
      | cons a l => rfl
    by_cases hDel : est.deleted_rows = []
    · refine ⟨{ added := mkAddedDf est.added_rows,
                edited := some
                  (locList df ((est.edited_rows.map Prod.fst).map (labelAt df)),
                   coerceTimestampCol
                     (applyAllEdits
                       (locList df ((est.edited_rows.map Prod.fst).map (labelAt df)))
                       ((((est.edited_rows.map Prod.fst).map (labelAt df))).zip
                         (est.edited_rows.map Prod.snd)))),
                deleted := { cols := [], rows := [] } }, ?_, ?_, rfl, ?_, ?_⟩
      · simp [get_changes_from_editor, hIsE, hDel, hEdIdx]
      · simp [hDel]
      · simp [hEmp]
      · intro pre post h
        simp only [Option.some.injEq, Prod.mk.injEq] at h
        obtain ⟨h1, h2⟩ := h
        subst h1
        subst h2
        exact ⟨hpre, (hpost _ rfl).1, (hpost _ rfl).2.1, (hpost _ rfl).2.2⟩
    · have hIsD : est.deleted_rows.isEmpty = false := by
        cases hD : est.deleted_rows with
        | nil => exact absurd hD hDel
        | cons a l => rfl
      refine ⟨{ added := mkAddedDf est.added_rows,
                edited := some
                  (locList df ((est.edited_rows.map Prod.fst).map (labelAt df)),
                   coerceTimestampCol
                     (applyAllEdits
                       (locList df ((est.edited_rows.map Prod.fst).map (labelAt df)))
                       ((((est.edited_rows.map Prod.fst).map (labelAt df))).zip
                         (est.edited_rows.map Prod.snd)))),
                deleted := locList df (est.deleted_rows.map (labelAt df)) },
        ?_, ?_, rfl, ?_, ?_⟩
      · simp [get_changes_from_editor, hIsE, hIsD, hEdIdx, hDelIdx]
      · exact hdelmap
      · simp [hEmp]
      · intro pre post h
        simp only [Option.some.injEq, Prod.mk.injEq] at h
        obtain ⟨h1, h2⟩ := h
        subst h1
        subst h2
        exact ⟨hpre, (hpost _ rfl).1, (hpost _ rfl).2.1, (hpost _ rfl).2.2⟩

/-- C1 counterexample: an edit writing the unparseable string "garbage"
into the TIMESTAMP column yields a post-image cell holding the missing
value, not the listed new value, because get_changes_from_editor
re-coerces the TIMESTAMP column of the post-image. -/
theorem timestamp_coercion_cex :
    postImageCell (get_changes_from_editor (some estTsGarbage) dfW PK_COLUMN) = Val.na ∧
    (estTsGarbage.edited_rows.getD 0 (0, [])).2.find? (fun cv => cv.1 == "TIMESTAMP") =
      some ("TIMESTAMP", Val.str "garbage") ∧
    Val.na ≠ Val.str "garbage" := by
  refine ⟨by decide, by decide, by decide⟩

/-- C1 witness: the materialization theorem at a concrete editor state
touching all three change types. -/
theorem get_changes_from_editor_materializes_witness :
    ∃ c, get_changes_from_editor (some estFull) dfW "BATCH_ID" = Except.ok (some c) ∧
      c.deleted.rows = estFull.deleted_rows.map (origRowAt dfW) ∧
      c.added = mkAddedDf estFull.added_rows ∧
      (c.edited = none ↔ estFull.edited_rows = []) ∧
      (∀ pre post, c.edited = some (pre, post) →
        pre.rows = estFull.edited_rows.map (fun pr => origRowAt dfW pr.1) ∧
        post.cols = dfW.cols ∧
        post.rows.length = estFull.edited_rows.length ∧
        ∀ j, j < estFull.edited_rows.length → ∀ c' : String,
          (post.rows.getD j (Val.na, [])).1 =
            labelAt dfW (estFull.edited_rows.getD j (0, [])).1 ∧
          rowGet (post.rows.getD j (Val.na, [])).2 c' =
            postCellSpec dfW (estFull.edited_rows.getD j (0, [])) c') :=
  get_changes_from_editor_materializes estFull dfW "BATCH_ID"
    (by decide) (by decide) (by decide) (by decide) (by decide) (by decide)

end TableEditor
